import Mathlib

/-!
# f5c batch ingestion and normalisation: `load_db`, `process_db`, `free_db_tmp`

A shallow embedding of `src/f5c.c`.  The C heap is a growing list of cells
(an address is an index, a freed cell is `none`, addresses are never reused),
so that dangling pointers, double frees and NULL dereferences are visible as
faults.  The external collaborators (htslib iterator, faidx, ReadDB, the fast5
reader and the event segmentation routine) are parameters.  Floating point
arithmetic is a parameter as well: the sample type `α` carries `+`, `*`, `/`
and a zero, and the embedding performs exactly the operations the C code
performs, in the same order.

Allocation never fails in the embedding (`MALLOC_CHK` / `NULL_CHK` abort the
process otherwise).  The read records of the batch are kept by value: the pair
`bam_destroy1` / `bam_init1` resets a slot.  The temporary `fast5_path` buffer of
`load_db` is allocated and freed within one loop iteration; only its size
enters the embedding (the size must be a valid allocation size and the `strcpy`
into it must fit).

The file has three parts: the embedding of the code, auxiliary definitions used
to state and prove the properties, and the theorems.
-/

namespace F5c

/-! ## Machine integers and constants -/

/-- Conversion of a non-negative integer to `int32_t` (two's complement wrap). -/
def toInt32 (n : Nat) : Int :=
  if n % 2 ^ 32 < 2 ^ 31 then ((n % 2 ^ 32 : Nat) : Int) else ((n % 2 ^ 32 : Nat) : Int) - 2 ^ 32

/-- Conversion of an integer to `int32_t` (two's complement wrap), as in
`int32_t ref_start_pos = record->core.pos`. -/
def wrap32 (z : Int) : Int := (z + 2 ^ 31) % 2 ^ 32 - 2 ^ 31

/-- htslib: the "segment unmapped" bit of a record's flag. -/
def BAM_FUNMAP : Nat := 4

/-- `#define m_min_mapping_quality 30` -/
def m_min_mapping_quality : Nat := 30

/-! ## Data model -/

/-- The fields of an htslib alignment record (`bam1_t`) that the code reads:
`core.flag`, `core.qual`, `core.tid`, `core.pos`, the read name, and `rlen`, the
reference span of the record's CIGAR, from which htslib computes the end
position. -/
structure bam1_t where
  flag : Nat
  qual : Nat
  tid : Int
  pos : Int
  rlen : Nat
  qname : String
deriving DecidableEq, Repr

/-- A freshly initialised (zeroed) record, as `bam_init1()` returns it. -/
def bam_init1 : bam1_t := ⟨0, 0, 0, 0, 0, ""⟩

/-- htslib `bam_endpos`: the position after the rightmost reference base; the
span counts as 1 for an unmapped record or an empty CIGAR. -/
def bam_endpos (b : bam1_t) : Int :=
  b.pos + (if b.flag &&& BAM_FUNMAP ≠ 0 ∨ b.rlen = 0 then 1 else (b.rlen : Int))

/-- Modelled from the spec: `opt_t` is declared in `f5c.h`, which is not among
the sources. The recognised options are the raw-sample printing toggle, the minimum
mapping quality and the secondary-alignment handling mode; the field names are
the ones `init_opt` assigns. -/
structure opt_t where
  print_raw : Bool
  min_mapq : Int
  con_sec : Int
deriving DecidableEq, Repr

/-- Defaults, as `init_opt` writes them. -/
def init_opt : opt_t := { print_raw := false, min_mapq := 30, con_sec := 0 }

/-- A pointer: `none` is NULL, `some a` is the address `a`. -/
abbrev Ptr := Option Nat

/-- Modelled from the spec: `fast5_t` is declared in a header that is not among
the sources. A raw-signal record is a sample buffer plus the calibration constants
range, digitisation, offset and the sample count; the field names are the ones
`process_db` reads. -/
structure fast5_t (α : Type) where
  rawptr : Ptr
  nsample : Nat
  digitisation : α
  offset : α
  range : α
deriving DecidableEq, Repr

/-- Modelled from the spec: `event_table` is declared in a header that is not
among the sources. The derived event sequence of a slot is an ordered list of event
descriptors; `getevents` returns the table by value and `free_db_tmp` frees its
`event` array, so the table is the number of events and the array pointer. -/
structure event_table where
  n : Nat
  event : Ptr
deriving DecidableEq, Repr

/-- What one heap allocation holds. -/
inductive Obj (α ε : Type) where
  | str (s : String)
  | f5 (r : fast5_t α)
  | raw (xs : List α)
  | ev (es : List ε)
deriving DecidableEq, Repr

/-- The heap: cell `a` is `some o` while allocation `a` is live and `none`
once it has been freed. -/
abbrev Heap (α ε : Type) := List (Option (Obj α ε))

/-- What `print_raw` writes for one read: read name, the path string, the
sample count and the samples. -/
structure RawLine (α : Type) where
  qname : String
  fast5_path : String
  nsample : Nat
  samples : List α
deriving DecidableEq, Repr

/-- Everything outside the batch that the functions read or write: the heap,
the arguments of the `fast5_open` calls, the warnings and standard output. -/
structure World (α ε : Type) where
  heap : Heap α ε
  opened : List String
  warned : List String
  stdout : List (RawLine α)
deriving DecidableEq, Repr

/-- The contents of a readable signal record in the archive. -/
structure Fast5File (α : Type) where
  samples : List α
  digitisation : α
  offset : α
  range : α
deriving DecidableEq, Repr

/-- The external routines that are not reached through `core_t`: `fast5_open`
(a negative handle means the file cannot be opened), `fast5_read` (`none` when
the read fails) and the event segmentation routine `getevents`. -/
structure Extern (α ε : Type) where
  fast5_open : String → Int
  fast5_read : Int → Option (Fast5File α)
  getevents : Nat → List α → List ε

/-- Modelled from the spec: `core_t` is declared in `f5c.h`, which is not among
the sources. The context holds the open read store with its region iterator, the
header, the reference store, the signal archive index and the configuration.
`itr` is what the iterator has yet to yield (`sam_itr_next` pops the head and
returns a negative value when nothing is left), `target_name` the header's
array of reference names (one entry per target), `fai` the reference store
(`none` when `faidx_fetch_seq` returns NULL), `readbb` the archive index as
`ReadDB_get_signal_path` answers it. -/
structure core_t where
  itr : List bam1_t
  target_name : List String
  fai : String → Int → Int → Option String
  readbb : String → String
  opt : opt_t

/-- Modelled from the spec: `db_t` is declared in `f5c.h`, which is not among
the sources. The batch is a fixed-capacity sequence of slots held as four parallel
arrays (read record, reference subsequence, raw-signal record, event table)
with the number of occupied slots; the field names are the ones `init_db`
assigns. -/
structure db_t where
  capacity_bam_rec : Nat
  n_bam_rec : Nat
  bam_rec : List bam1_t
  fasta_cache : List Ptr
  f5 : List Ptr
  et : List event_table
deriving DecidableEq, Repr

/-- Ways in which the C code leaves defined behaviour or aborts. -/
inductive Fault where
  | null_deref
  | wild_deref
  | bad_free
  | assert_fail
  | buffer_overflow
  | alloc_fail
  | out_of_range
  | diverge
deriving DecidableEq, Repr

/-! ## Heap primitives -/

variable {α ε : Type}

/-- Allocation: a new cell at the next address. -/
def malloc (h : Heap α ε) (o : Obj α ε) : Heap α ε × Nat := (h ++ [some o], h.length)

/-- The C `free`: a no-op on NULL, a fault on anything that is not live. -/
def free (h : Heap α ε) : Ptr → Except Fault (Heap α ε)
  | none => .ok h
  | some a =>
    match h[a]? with
    | some (some _) => .ok (h.set a none)
    | _ => .error .bad_free

/-- Read through a `fast5_t*`. -/
def deref_f5 (h : Heap α ε) : Ptr → Except Fault (fast5_t α)
  | none => .error .null_deref
  | some a =>
    match h[a]? with
    | some (some (.f5 f)) => .ok f
    | _ => .error .wild_deref

/-- Access to the first `n` samples behind a `float*`: nothing is touched
when `n = 0`. -/
def deref_raw (h : Heap α ε) (p : Ptr) (n : Nat) : Except Fault (List α) :=
  if n = 0 then .ok [] else
  match p with
  | none => .error .null_deref
  | some b =>
    match h[b]? with
    | some (some (.raw xs)) => if n ≤ xs.length then .ok xs else .error .buffer_overflow
    | _ => .error .wild_deref

/-! ## `init_db` -/

/-- The batch as `init_db` leaves it: 512 zeroed records; the three attachment
arrays come from `malloc` and hold whatever was in that memory (`junk`). -/
def init_db (junk_fasta junk_f5 : Nat → Ptr) (junk_et : Nat → event_table) : db_t :=
  { capacity_bam_rec := 512
    n_bam_rec := 0
    bam_rec := List.replicate 512 bam_init1
    fasta_cache := (List.range 512).map junk_fasta
    f5 := (List.range 512).map junk_f5
    et := (List.range 512).map junk_et }

/-! ## `load_db` -/

/-- The acceptance test of the first loop of `load_db`. -/
def accepts (r : bam1_t) : Bool :=
  (r.flag &&& BAM_FUNMAP == 0) && decide (m_min_mapping_quality ≤ r.qual)

/-- The first loop of `load_db`: `load_bams cap itr slots n` pulls records into
slot `n` while `n < cap` and returns the slots, the count and what is left of
the iterator. -/
def load_bams (cap : Nat) : List bam1_t → List bam1_t → Nat → List bam1_t × Nat × List bam1_t
  | [], slots, n => (slots, n, [])
  | r :: rest, slots, n =>
    if n < cap then
      if accepts r then load_bams cap rest (slots.set n r) (n + 1)
      else load_bams cap rest (slots.set n r) n
    else (slots, n, r :: rest)

/-- The array access `core->m_hdr->target_name[tid]`: `none` when `tid` is
negative or not below the number of entries, where the code reads outside the
array. -/
def target_name_at (core : core_t) (tid : Int) : Option String :=
  if 0 ≤ tid then core.target_name[tid.toNat]? else none

/-- The call `faidx_fetch_seq(core->fai, ref_name, ref_start_pos, ref_end_pos, …)`:
the fetched sequence is a new allocation, NULL when the fetch fails. -/
def fetch_ref (core : core_t) (ref_name : String) (ref_start_pos ref_end_pos : Int)
    (h : Heap α ε) : Heap α ε × Ptr :=
  match core.fai ref_name ref_start_pos ref_end_pos with
  | none => (h, none)
  | some s => ((malloc h (.str s)).1, some (malloc h (.str s)).2)

/-- The block `hdf5_file = fast5_open(fast5_path); if (hdf5_file >= 0) … else WARNING`:
on success `db->f5[i]` is a `calloc`ed record that `fast5_read` fills (it stays
zeroed when the read fails); on failure only the warning is written. -/
def open_signal (ext : Extern α ε) [Zero α] (fast5_path : String) (i : Nat) (db : db_t)
    (w : World α ε) : db_t × World α ε :=
  let hdf5_file := ext.fast5_open fast5_path
  let w1 : World α ε := { w with opened := w.opened ++ [fast5_path] }
  if 0 ≤ hdf5_file then
    let a := w1.heap.length
    let cells : List (Option (Obj α ε)) :=
      match ext.fast5_read hdf5_file with
      | none => [some (.f5 ⟨none, 0, 0, 0, 0⟩)]
      | some file =>
        [some (.f5 ⟨some (a + 1), file.samples.length, file.digitisation, file.offset,
            file.range⟩), some (.raw file.samples)]
    ({ db with f5 := db.f5.set i (some a) }, { w1 with heap := w1.heap ++ cells })
  else
    (db, { w1 with warned := w1.warned ++ [fast5_path] })

/-- The `print_raw` block: the sample count and the samples are read through
`db->f5[i]`; the loop counter is a `uint32_t`. -/
def print_raw_line (h : Heap α ε) (p : Ptr) (qname fast5_path : String) :
    Except Fault (RawLine α) :=
  match deref_f5 h p with
  | .error e => .error e
  | .ok f =>
    if 2 ^ 32 ≤ f.nsample then .error .diverge else
    match deref_raw h f.rawptr f.nsample with
    | .error e => .error e
    | .ok xs => .ok ⟨qname, fast5_path, f.nsample, xs.take f.nsample⟩

/-- The body of the second loop of `load_db` for slot `i`. -/
def load_slot (core : core_t) (ext : Extern α ε) [Zero α] (i : Nat) (db : db_t) (w : World α ε) :
    Except Fault (db_t × World α ε) :=
  match db.bam_rec[i]? with
  | none => .error .out_of_range
  | some record =>
    match target_name_at core record.tid with
    | none => .error .out_of_range
    | some ref_name =>
    -- int32_t ref_start_pos = record->core.pos; int32_t ref_end_pos = bam_endpos(record);
    let ref_start_pos := wrap32 record.pos
    let ref_end_pos := wrap32 (bam_endpos record)
    -- assert(ref_end_pos >= ref_start_pos)
    if ref_end_pos < ref_start_pos then .error .assert_fail else
    if db.fasta_cache.length ≤ i ∨ db.f5.length ≤ i then .error .out_of_range else
    let fetched := fetch_ref core ref_name ref_start_pos ref_end_pos w.heap
    let db1 := { db with fasta_cache := db.fasta_cache.set i fetched.2 }
    let qname := record.qname
    let path := core.readbb qname
    -- int len = strlen(path) + 10
    let len := wrap32 ((path.length : Int) + 10)
    -- fast5_path = malloc(len + 10): a negative `int` is a huge `size_t`, MALLOC_CHK aborts
    let size := wrap32 (len + 10)
    if size < 0 then .error .alloc_fail else
    -- strcpy(fast5_path, qname)
    if size < (qname.length : Int) + 1 then .error .buffer_overflow else
    let fast5_path := qname
    let opened := open_signal ext fast5_path i db1 { w with heap := fetched.1 }
    if core.opt.print_raw then
      match print_raw_line opened.2.heap (opened.1.f5.getD i none) qname fast5_path with
      | .error e => .error e
      | .ok line => .ok (opened.1, { opened.2 with stdout := opened.2.stdout ++ [line] })
    else .ok opened

/-- The second loop of `load_db`: `load_attach k i` runs the body for slots
`i, i+1, …, i+k-1`. -/
def load_attach (core : core_t) (ext : Extern α ε) [Zero α] :
    Nat → Nat → db_t → World α ε → Except Fault (db_t × World α ε)
  | 0, _, db, w => .ok (db, w)
  | k + 1, i, db, w =>
    match load_slot core ext i db w with
    | .error e => .error e
    | .ok (db1, w1) => load_attach core ext k (i + 1) db1 w1

/-- What `load_db` leaves behind: the context (its iterator advanced), the
batch, the world and the returned count. -/
structure Loaded (α ε : Type) where
  core : core_t
  db : db_t
  w : World α ε
  ret : Nat

/-- The function `load_db`. -/
def load_db (core : core_t) (ext : Extern α ε) [Zero α] (db : db_t) (w : World α ε) :
    Except Fault (Loaded α ε) :=
  let r := load_bams db.capacity_bam_rec core.itr db.bam_rec 0
  let db0 := { db with n_bam_rec := r.2.1, bam_rec := r.1 }
  let core0 := { core with itr := r.2.2 }
  match load_attach core0 ext db0.n_bam_rec 0 db0 w with
  | .error e => .error e
  | .ok (db1, w1) => .ok ⟨core0, db1, w1, db1.n_bam_rec⟩

/-! ## `process_db` -/

/-- The conversion loop `for (j = …; j < nsample; j++) rawptr[j] = (rawptr[j] + offset) * raw_unit`,
with `k` iterations left. -/
def convert [Add α] [Mul α] (offset raw_unit : α) : Nat → Nat → List α → List α
  | 0, _, buf => buf
  | k + 1, j, buf =>
    convert offset raw_unit k (j + 1)
      (match buf[j]? with
       | some x => buf.set j ((x + offset) * raw_unit)
       | none => buf)

/-- The body of the loop of `process_db` for slot `i`. -/
def process_slot (ext : Extern α ε) [Add α] [Mul α] [Div α] (i : Nat) (db : db_t) (w : World α ε) :
    Except Fault (db_t × World α ε) :=
  if db.f5.length ≤ i ∨ db.et.length ≤ i then .error .out_of_range else
  match deref_f5 w.heap (db.f5.getD i none) with
  | .error e => .error e
  | .ok f =>
    let rawptr := f.rawptr
    let range := f.range
    let digitisation := f.digitisation
    let offset := f.offset
    let nsample := toInt32 f.nsample
    let raw_unit := range / digitisation
    match deref_raw w.heap rawptr nsample.toNat with
    | .error e => .error e
    | .ok xs =>
      let h1 : Heap α ε :=
        match rawptr with
        | some b => if nsample.toNat = 0 then w.heap
                    else w.heap.set b (some (.raw (convert offset raw_unit nsample.toNat 0 xs)))
        | none => w.heap
      -- getevents reads f.nsample samples through rawptr
      match deref_raw h1 rawptr f.nsample with
      | .error e => .error e
      | .ok ys =>
        let es := ext.getevents f.nsample ys
        let e := malloc h1 (.ev es)
        .ok ({ db with et := db.et.set i ⟨es.length, some e.2⟩ }, { w with heap := e.1 })

/-- The loop of `process_db` over slots `i, …, i+k-1`. -/
def process_loop (ext : Extern α ε) [Add α] [Mul α] [Div α] :
    Nat → Nat → db_t → World α ε → Except Fault (db_t × World α ε)
  | 0, _, db, w => .ok (db, w)
  | k + 1, i, db, w =>
    match process_slot ext i db w with
    | .error e => .error e
    | .ok (db1, w1) => process_loop ext k (i + 1) db1 w1

/-- The function `process_db` (its `core` argument is not used by the code). -/
def process_db (ext : Extern α ε) [Add α] [Mul α] [Div α] (db : db_t) (w : World α ε) :
    Except Fault (db_t × World α ε) :=
  process_loop ext db.n_bam_rec 0 db w

/-! ## `free_db_tmp` -/

/-- The body of the loop of `free_db_tmp` for slot `i`. -/
def free_slot (i : Nat) (db : db_t) (w : World α ε) : Except Fault (db_t × World α ε) :=
  if db.bam_rec.length ≤ i ∨ db.fasta_cache.length ≤ i ∨ db.f5.length ≤ i ∨ db.et.length ≤ i then
    .error .out_of_range
  else
  let db1 := { db with bam_rec := db.bam_rec.set i bam_init1 }
  match free w.heap (db.fasta_cache.getD i none) with
  | .error e => .error e
  | .ok h1 =>
    match deref_f5 h1 (db.f5.getD i none) with
    | .error e => .error e
    | .ok f =>
      match free h1 f.rawptr with
      | .error e => .error e
      | .ok h2 =>
        match free h2 (db.f5.getD i none) with
        | .error e => .error e
        | .ok h3 =>
          match free h3 ((db.et.getD i ⟨0, none⟩).event) with
          | .error e => .error e
          | .ok h4 => .ok (db1, { w with heap := h4 })

/-- The loop of `free_db_tmp` over slots `i, …, i+k-1`. -/
def free_loop : Nat → Nat → db_t → World α ε → Except Fault (db_t × World α ε)
  | 0, _, db, w => .ok (db, w)
  | k + 1, i, db, w =>
    match free_slot i db w with
    | .error e => .error e
    | .ok (db1, w1) => free_loop k (i + 1) db1 w1

/-- The function `free_db_tmp`. -/
def free_db_tmp (db : db_t) (w : World α ε) : Except Fault (db_t × World α ε) :=
  free_loop db.n_bam_rec 0 db w

/-! ## Auxiliary definitions: what the second loop of `load_db` allocates -/

/-- The reference span that `load_db` fetches for a record (`none` also when
the record's `tid` is outside the header's table). -/
def ref_of (core : core_t) (r : bam1_t) : Option String :=
  match target_name_at core r.tid with
  | none => none
  | some ref_name => core.fai ref_name (wrap32 r.pos) (wrap32 (bam_endpos r))

/-- Number of cells the reference fetch of a record allocates. -/
def ref_len (core : core_t) (r : bam1_t) : Nat :=
  match ref_of core r with
  | none => 0
  | some _ => 1

/-- The cells the reference fetch of a record allocates. -/
def ref_cells (core : core_t) (r : bam1_t) : List (Option (Obj α ε)) :=
  match ref_of core r with
  | none => []
  | some s => [some (.str s)]

/-- The pointer stored in `fasta_cache` when the heap had `lo` cells. -/
def ref_ptr (core : core_t) (r : bam1_t) (lo : Nat) : Ptr :=
  match ref_of core r with
  | none => none
  | some _ => some lo

/-- The cells allocated for the signal record when it is placed at address `a`. -/
def sig_cells (ext : Extern α ε) [Zero α] (r : bam1_t) (a : Nat) : List (Option (Obj α ε)) :=
  if 0 ≤ ext.fast5_open r.qname then
    match ext.fast5_read (ext.fast5_open r.qname) with
    | none => [some (.f5 ⟨none, 0, 0, 0, 0⟩)]
    | some file =>
      [some (.f5 ⟨some (a + 1), file.samples.length, file.digitisation, file.offset, file.range⟩),
        some (.raw file.samples)]
  else []

/-- All cells one iteration of the second loop allocates, from heap size `lo`. -/
def slot_cells (core : core_t) (ext : Extern α ε) [Zero α] (r : bam1_t) (lo : Nat) :
    List (Option (Obj α ε)) :=
  ref_cells core r ++ sig_cells ext r (lo + ref_len core r)

/-- The reference lookup of a record stays within defined behaviour and passes
the assertion: `tid` indexes the header's table, and the `int32_t` end position
is not below the `int32_t` start position. -/
def ref_pre (core : core_t) (r : bam1_t) : Bool :=
  (target_name_at core r.tid).isSome && decide (wrap32 r.pos ≤ wrap32 (bam_endpos r))

/-- The signal lookup of a record stays within defined behaviour: the read name
fits the path buffer, and when raw printing is on the signal record opened and
its sample count fits the `uint32_t` counter. -/
def path_pre (core : core_t) (ext : Extern α ε) (r : bam1_t) : Bool :=
  decide ((r.qname.length : Int) + 1
    ≤ wrap32 (wrap32 (((core.readbb r.qname).length : Int) + 10) + 10)) &&
    (!core.opt.print_raw ||
      (decide (0 ≤ ext.fast5_open r.qname) &&
        match ext.fast5_read (ext.fast5_open r.qname) with
        | none => true
        | some file => decide (file.samples.length < 2 ^ 32)))

/-- The condition under which one iteration of the second loop stays within
defined behaviour and does not abort. -/
def slot_pre (core : core_t) (ext : Extern α ε) (r : bam1_t) : Bool :=
  ref_pre core r && path_pre core ext r

/-- Number of cells the signal record of a read allocates. -/
def sig_len (ext : Extern α ε) (r : bam1_t) : Nat :=
  if 0 ≤ ext.fast5_open r.qname then
    match ext.fast5_read (ext.fast5_open r.qname) with
    | none => 1
    | some _ => 2
  else 0

/-- Number of cells one iteration of the second loop allocates. -/
def slot_len (core : core_t) (ext : Extern α ε) (r : bam1_t) : Nat :=
  ref_len core r + sig_len ext r

/-- The cells the second loop allocates for a list of records, from heap size `lo`. -/
def batch_cells (core : core_t) (ext : Extern α ε) [Zero α] :
    List bam1_t → Nat → List (Option (Obj α ε))
  | [], _ => []
  | r :: rs, lo => slot_cells core ext r lo ++ batch_cells core ext rs (lo + slot_len core ext r)

/-- The attachment pointers of slots `j, j+1, …` are the ones the second loop
stores for the records `rs` when it starts from heap size `lo` (the signal
pointer only where the signal record opened). -/
def Ptrs (core : core_t) (ext : Extern α ε) (db : db_t) : List bam1_t → Nat → Nat → Prop
  | [], _, _ => True
  | r :: rs, j, lo =>
    db.fasta_cache[j]? = some (ref_ptr core r lo) ∧
    (0 ≤ ext.fast5_open r.qname → db.f5[j]? = some (some (lo + ref_len core r))) ∧
    Ptrs core ext db rs (j + 1) (lo + slot_len core ext r)

/-! ## Auxiliary definitions: well-formed batches and defined behaviour -/

/-- The batch arrays all have `capacity_bam_rec` entries, as `init_db` allocates them. -/
def wf (db : db_t) : Prop :=
  db.bam_rec.length = db.capacity_bam_rec ∧ db.fasta_cache.length = db.capacity_bam_rec ∧
    db.f5.length = db.capacity_bam_rec ∧ db.et.length = db.capacity_bam_rec

instance (db : db_t) : Decidable (wf db) := by
  unfold wf
  infer_instance

/-- The records a `Load` with capacity `cap` accepts from the iterator. -/
def batch_of (core : core_t) (cap : Nat) : List bam1_t :=
  (core.itr.filter accepts).take cap

/-- The second loop stays within defined behaviour, and passes its assertion,
for every record of the batch: `tid` indexes the header's table, the `int32_t`
end position is not below the `int32_t` start position, the path buffer can be
allocated and holds the read name, and with raw printing on the signal record
opened. -/
def load_pre (core : core_t) (ext : Extern α ε) (cap : Nat) : Bool :=
  (batch_of core cap).all (slot_pre core ext)

/-! ## Auxiliary definitions: reading the heap -/

/-- The signal record stored at address `a`, if that cell holds one. -/
def f5_at (h : Heap α ε) (a : Nat) : Option (fast5_t α) :=
  match h[a]? with
  | some (some (.f5 f)) => some f
  | _ => none

/-- The sample buffer stored at address `x`, if that cell holds one. -/
def raw_at (h : Heap α ε) (x : Nat) : Option (List α) :=
  match h[x]? with
  | some (some (.raw xs)) => some xs
  | _ => none

/-- The signal record attached to slot `j`, if the slot's pointer leads to one. -/
def slot_sig (h : Heap α ε) (db : db_t) (j : Nat) : Option (fast5_t α) :=
  match db.f5[j]? with
  | some (some a) => f5_at h a
  | _ => none

/-- The sample buffer of a signal record can be read over its whole sample count. -/
def buf_valid (h : Heap α ε) (f : fast5_t α) : Prop :=
  f.nsample = 0 ∨ ∃ b xs, f.rawptr = some b ∧ raw_at h b = some xs ∧ f.nsample ≤ xs.length

/-- The unit conversion of one sample. -/
def to_pA [Add α] [Mul α] [Div α] (f : fast5_t α) (r : α) : α :=
  (r + f.offset) * (f.range / f.digitisation)

/-- Number of cells the second loop allocates for a list of records. -/
def batch_len (core : core_t) (ext : Extern α ε) : List bam1_t → Nat
  | [] => 0
  | r :: rs => slot_len core ext r + batch_len core ext rs

/-! ## Auxiliary definitions: drivers -/

/-- The driver of the batch-boundary claim: `load_db`, and while it returns a
non-zero count collect the occupied slots, run `free_db_tmp` and load again.
The result is `none` when the fuel runs out first. -/
def drain (ext : Extern α ε) [Zero α] :
    Nat → core_t → db_t → World α ε → Except Fault (Option (List (List bam1_t)))
  | 0, _, _, _ => .ok none
  | fuel + 1, core, db, w =>
    match load_db core ext db w with
    | .error e => .error e
    | .ok l =>
      if l.ret = 0 then .ok (some [])
      else
        match free_db_tmp l.db l.w with
        | .error e => .error e
        | .ok (db1, w1) =>
          match drain ext fuel l.core db1 w1 with
          | .error e => .error e
          | .ok none => .ok none
          | .ok (some bs) => .ok (some (l.db.bam_rec.take l.ret :: bs))

/-- Every accepted record of the stream can be attached and later released
without leaving defined behaviour: `slot_pre` holds for it and its signal
record opens. -/
def stream_ok (core : core_t) (ext : Extern α ε) : Prop :=
  ∀ r ∈ core.itr, accepts r = true →
    slot_pre core ext r = true ∧ 0 ≤ ext.fast5_open r.qname

/-- One pipeline cycle: `load_db`, `process_db`, `free_db_tmp`. -/
def cycle (core : core_t) (ext : Extern α ε) [Zero α] [Add α] [Mul α] [Div α] (db : db_t)
    (w : World α ε) : Except Fault (core_t × db_t × World α ε × Nat) :=
  match load_db core ext db w with
  | .error e => .error e
  | .ok l =>
    match process_db ext l.db l.w with
    | .error e => .error e
    | .ok (db1, w1) =>
      match free_db_tmp db1 w1 with
      | .error e => .error e
      | .ok (db2, w2) => .ok (l.core, db2, w2, l.ret)

/-- The allocations that are live in a heap. -/
def live (h : Heap α ε) : List Nat :=
  (List.range h.length).filter (fun a => (h.getD a none).isSome)

/-- The fault of an outcome, if it is one. -/
def fault_of {β : Type} : Except Fault β → Option Fault
  | .error e => some e
  | .ok _ => none

/-! ## Concrete inputs -/

/-- A file system in which the files named `read3` and `read4` can be opened;
every readable record holds the samples `[10, 20]` with digitisation 1,
offset 5 and range 2. Events are modelled by the sample count. -/
def ext0 : Extern Int Nat :=
  { fast5_open := fun s => if s = "read3" ∨ s = "read4" then 3 else -1
    fast5_read := fun _ => some ⟨[10, 20], 1, 5, 2⟩
    getevents := fun n _ => [n] }

/-- An unmapped record. -/
def rec_unmapped : bam1_t := ⟨4, 60, 0, 0, 0, "read1"⟩

/-- A mapped record of mapping quality 40. -/
def rec_q40 : bam1_t := ⟨0, 40, 0, 7, 3, "read3"⟩

/-- A mapped record of mapping quality 35. -/
def rec_q35 : bam1_t := ⟨0, 35, 0, 9, 3, "read4"⟩

/-- A context over the given stream and options, with a one-contig reference. -/
def core_of (itr : List bam1_t) (opt : opt_t) : core_t :=
  { itr := itr
    target_name := ["chr1"]
    fai := fun _ _ _ => some "ACGT"
    readbb := fun q => "/data/" ++ q ++ ".fast5"
    opt := opt }

/-- A batch of capacity 2 whose attachment arrays are zeroed. -/
def db2 : db_t :=
  { capacity_bam_rec := 2, n_bam_rec := 0, bam_rec := [bam_init1, bam_init1],
    fasta_cache := [none, none], f5 := [none, none], et := [⟨0, none⟩, ⟨0, none⟩] }

/-- The empty world. -/
def w0 : World Int Nat := ⟨[], [], [], []⟩

/-- A batch of capacity 2 whose slot 0 still carries the signal pointer of an
earlier cycle (address 1). -/
def db2_stale : db_t := { db2 with f5 := [some 1, none] }

/-- A world in which the cells of an earlier cycle have been freed. -/
def w_freed : World Int Nat := ⟨[none, none, none, none], [], [], []⟩

/-- A file system that holds exactly the file the archive index resolves for
`read3`. -/
def ext_resolved : Extern Int Nat :=
  { ext0 with fast5_open := fun s => if s = "/data/read3.fast5" then 3 else -1 }

/-- A batch with one occupied slot whose signal attachment is empty. -/
def db_empty_signal : db_t := { db2 with n_bam_rec := 1, bam_rec := [rec_q40, bam_init1] }

/-- A segmentation routine over rational samples (events modelled by the sample count). -/
def extQ : Extern ℚ Nat :=
  { fast5_open := fun _ => 3, fast5_read := fun _ => none, getevents := fun n _ => [n] }

/-- One occupied slot whose signal record is at address 0. -/
def dbQ : db_t :=
  { capacity_bam_rec := 2, n_bam_rec := 1, bam_rec := [rec_q40, bam_init1],
    fasta_cache := [none, none], f5 := [some 0, none], et := [⟨0, none⟩, ⟨0, none⟩] }

/-- The signal record of Scenario B. -/
def f5Q : fast5_t ℚ := { rawptr := some 1, nsample := 2, digitisation := 1, offset := 5, range := 2 }

/-- Scenario B: samples `[10, 20]`, offset 5, range 2.0, digitisation 1.0. -/
def wQ : World ℚ Nat := ⟨[some (.f5 f5Q), some (.raw [10, 20])], [], [], []⟩

/-- A batch of capacity 1 whose attachment arrays are zeroed. -/
def db_cap1 : db_t :=
  { capacity_bam_rec := 1, n_bam_rec := 0, bam_rec := [bam_init1],
    fasta_cache := [none], f5 := [none], et := [⟨0, none⟩] }

/-- An accepted record whose signal record cannot be opened in `ext0`. -/
def rec_unreadable : bam1_t := ⟨0, 40, 0, 7, 3, "read2x"⟩

/-! ## Lists -/

theorem take_set_self {β : Type} (l : List β) (n : Nat) (a : β) : (l.set n a).take n = l.take n := by
  induction l generalizing n with
  | nil => simp
  | cons x xs ih =>
    cases n with
    | zero => simp
    | succ m => simp [ih]

theorem take_succ_set {β : Type} (l : List β) (n : Nat) (a : β) (h : n < l.length) :
    (l.set n a).take (n + 1) = l.take n ++ [a] := by
  rw [List.take_succ, take_set_self]
  simp [h]

theorem lt_of_getElem?_some {β : Type} (l : List β) (i : Nat) (x : β) (h : l[i]? = some x) :
    i < l.length := by
  by_contra hcon
  rw [List.getElem?_eq_none (by omega)] at h
  cases h

/-! ## `init_db` -/

theorem init_db_wf (junk_fasta junk_f5 : Nat → Ptr) (junk_et : Nat → event_table) :
    wf (init_db junk_fasta junk_f5 junk_et) ∧
      (init_db junk_fasta junk_f5 junk_et).capacity_bam_rec = 512 := by
  unfold wf init_db
  simp only [List.length_replicate, List.length_map, List.length_range, and_self]

/-! ## The first loop of `load_db` -/

theorem load_bams_full (cap : Nat) (itr slots : List bam1_t) (n : Nat) (h : ¬ n < cap) :
    load_bams cap itr slots n = (slots, n, itr) := by
  cases itr <;> simp [load_bams, h]

theorem load_bams_spec (cap : Nat) (itr : List bam1_t) :
    ∀ (slots : List bam1_t) (n : Nat), n ≤ cap → cap ≤ slots.length →
      ∃ pulled, itr = pulled ++ (load_bams cap itr slots n).2.2 ∧
        (load_bams cap itr slots n).1.take (load_bams cap itr slots n).2.1
          = slots.take n ++ pulled.filter accepts ∧
        (load_bams cap itr slots n).2.1 = n + (pulled.filter accepts).length ∧
        (load_bams cap itr slots n).2.1 ≤ cap ∧
        ((load_bams cap itr slots n).2.1 < cap → (load_bams cap itr slots n).2.2 = []) ∧
        (n < cap → (load_bams cap itr slots n).2.1 = cap →
          ∃ r, pulled.getLast? = some r ∧ accepts r = true) ∧
        (¬ n < cap → pulled = []) ∧
        (load_bams cap itr slots n).1.length = slots.length := by
  induction itr with
  | nil =>
    intro slots n hn hc
    refine ⟨[], ?_⟩
    simp [load_bams, hn]
    omega
  | cons r rest ih =>
    intro slots n hn hc
    by_cases hlt : n < cap
    · have hn' : n < slots.length := by omega
      by_cases ha : accepts r = true
      · obtain ⟨pulled, h1, h2, h3, h4, h5, h6, h7, h8⟩ :=
          ih (slots.set n r) (n + 1) (by omega) (by simpa using hc)
        refine ⟨r :: pulled, ?_⟩
        simp only [load_bams, hlt, ha, if_true]
        refine ⟨by simpa using h1, ?_, ?_, h4, h5, ?_, by simp [hlt], by simpa using h8⟩
        · rw [h2, take_succ_set _ _ _ hn']
          simp [List.filter_cons, ha]
        · rw [h3]; simp [List.filter_cons, ha]; omega
        · intro _ hcap
          by_cases hn1 : n + 1 < cap
          · obtain ⟨r', hr', hacc⟩ := h6 hn1 hcap
            refine ⟨r', ?_, hacc⟩
            cases pulled with
            | nil => simp at hr'
            | cons p ps => simpa [List.getLast?_cons_cons] using hr'
          · refine ⟨r, ?_, ha⟩
            simp [h7 hn1]
      · obtain ⟨pulled, h1, h2, h3, h4, h5, h6, h7, h8⟩ :=
          ih (slots.set n r) n hn (by simpa using hc)
        have ha' : accepts r = false := by simpa using ha
        refine ⟨r :: pulled, ?_⟩
        simp only [load_bams, hlt, ha', if_true, Bool.false_eq_true, if_false]
        refine ⟨by simpa using h1, ?_, ?_, h4, h5, ?_, by simp [hlt], by simpa using h8⟩
        · rw [h2, take_set_self]
          simp [List.filter_cons, ha]
        · rw [h3]; simp [List.filter_cons, ha]
        · intro _ hcap
          obtain ⟨r', hr', hacc⟩ := h6 hlt hcap
          refine ⟨r', ?_, hacc⟩
          cases pulled with
          | nil => simp at hr'
          | cons p ps => simpa [List.getLast?_cons_cons] using hr'
    · refine ⟨[], ?_⟩
      simp [load_bams_full _ _ _ _ hlt, hlt]
      omega

/-! ## The second loop of `load_db` -/

theorem getElem?_append_len {β : Type} (l m : List β) (k : Nat) :
    (l ++ m)[l.length + k]? = m[k]? := by
  rw [List.getElem?_append_right (by omega)]
  simp

theorem getElem?_append_len0 {β : Type} (l m : List β) :
    (l ++ m)[l.length]? = m[0]? := by
  simpa using getElem?_append_len l m 0

theorem deref_f5_append (h cs : Heap α ε) (k : Nat) (f : fast5_t α)
    (hk : cs[k]? = some (some (.f5 f))) : deref_f5 (h ++ cs) (some (h.length + k)) = .ok f := by
  unfold deref_f5
  simp only [getElem?_append_len, hk]

theorem deref_raw_append (h cs : Heap α ε) (k n : Nat) (xs : List α)
    (hk : cs[k]? = some (some (.raw xs))) (hn : n ≤ xs.length) :
    deref_raw (h ++ cs) (some (h.length + k)) n = .ok (if n = 0 then [] else xs) := by
  unfold deref_raw
  by_cases h0 : n = 0
  · simp [h0]
  · simp only [h0, if_false, getElem?_append_len, hk, hn, if_true]

theorem fetch_ref_eq (core : core_t) (r : bam1_t) (ref_name : String) (h : Heap α ε)
    (hn : target_name_at core r.tid = some ref_name) :
    fetch_ref core ref_name (wrap32 r.pos) (wrap32 (bam_endpos r)) h
      = (h ++ ref_cells core r, ref_ptr core r h.length) := by
  unfold fetch_ref ref_cells ref_ptr ref_of malloc
  simp only [hn]
  cases core.fai ref_name (wrap32 r.pos) (wrap32 (bam_endpos r)) <;> simp

theorem ref_cells_length (core : core_t) (r : bam1_t) :
    (ref_cells core r : List (Option (Obj α ε))).length = ref_len core r := by
  unfold ref_cells ref_len
  cases ref_of core r <;> simp

theorem open_signal_eq (ext : Extern α ε) [Zero α] (r : bam1_t) (i : Nat) (db : db_t)
    (w : World α ε) :
    open_signal ext r.qname i db w =
      ({ db with f5 := if 0 ≤ ext.fast5_open r.qname then db.f5.set i (some w.heap.length)
                       else db.f5 },
       { w with heap := w.heap ++ sig_cells ext r w.heap.length
                opened := w.opened ++ [r.qname]
                warned := if 0 ≤ ext.fast5_open r.qname then w.warned
                          else w.warned ++ [r.qname] }) := by
  unfold open_signal sig_cells
  by_cases hopen : 0 ≤ ext.fast5_open r.qname
  · simp only [hopen, if_true]
  · simp [hopen]

theorem print_raw_line_ok (ext : Extern α ε) [Zero α] (r : bam1_t) (h : Heap α ε)
    (q p : String) (hopen : 0 ≤ ext.fast5_open r.qname)
    (hlen : ∀ file, ext.fast5_read (ext.fast5_open r.qname) = some file →
      file.samples.length < 2 ^ 32) :
    ∃ line, print_raw_line (h ++ sig_cells ext r h.length) (some h.length) q p = .ok line := by
  unfold print_raw_line sig_cells
  simp only [hopen, if_true]
  cases hrd : ext.fast5_read (ext.fast5_open r.qname) with
  | none =>
    have h1 := deref_f5_append h [some (Obj.f5 (⟨none, 0, 0, 0, 0⟩ : fast5_t α))] 0 _ rfl
    simp only [Nat.add_zero] at h1
    simp [h1, deref_raw]
  | some file =>
    have hl := hlen file hrd
    have h1 := deref_f5_append h
      [some (Obj.f5 (⟨some (h.length + 1), file.samples.length, file.digitisation, file.offset,
        file.range⟩ : fast5_t α)), some (Obj.raw file.samples)] 0 _ rfl
    have h2 := deref_raw_append h
      [some (Obj.f5 (⟨some (h.length + 1), file.samples.length, file.digitisation, file.offset,
        file.range⟩ : fast5_t α)), some (Obj.raw file.samples)] 1 file.samples.length
        file.samples rfl (Nat.le_refl _)
    simp only [Nat.add_zero] at h1
    have hl' : ¬ (2 ^ 32 ≤ file.samples.length) := by omega
    simp only [h1, h2, hl', if_false]
    exact ⟨_, rfl⟩

theorem load_slot_ok (core : core_t) (ext : Extern α ε) [Zero α] (i : Nat) (db : db_t)
    (w : World α ε) (r : bam1_t) (hr : db.bam_rec[i]? = some r)
    (hf : i < db.fasta_cache.length) (h5 : i < db.f5.length)
    (hp : slot_pre core ext r = true) :
    ∃ w1, load_slot core ext i db w =
        .ok ({ db with
                fasta_cache := db.fasta_cache.set i (ref_ptr core r w.heap.length)
                f5 := if 0 ≤ ext.fast5_open r.qname then
                        db.f5.set i (some (w.heap.length + ref_len core r))
                      else db.f5 }, w1) ∧
      w1.heap = w.heap ++ slot_cells core ext r w.heap.length ∧
      w1.opened = w.opened ++ [r.qname] := by
  obtain ⟨hrp, hp⟩ : ref_pre core r = true ∧ path_pre core ext r = true := by
    simpa only [slot_pre, Bool.and_eq_true] using hp
  obtain ⟨ref_name, hn⟩ : ∃ ref_name, target_name_at core r.tid = some ref_name := by
    simp only [ref_pre, Bool.and_eq_true] at hrp
    exact Option.isSome_iff_exists.mp hrp.1
  have hassert : ¬ (wrap32 (bam_endpos r) < wrap32 r.pos) := by
    simp only [ref_pre, Bool.and_eq_true, decide_eq_true_eq] at hrp
    omega
  have hq : ¬ (wrap32 (wrap32 (((core.readbb r.qname).length : Int) + 10) + 10)
      < (r.qname.length : Int) + 1) := by
    simp only [path_pre, Bool.and_eq_true, decide_eq_true_eq] at hp
    omega
  have hq0 : ¬ (wrap32 (wrap32 (((core.readbb r.qname).length : Int) + 10) + 10) < 0) := by
    omega
  have hidx : ¬ (db.fasta_cache.length ≤ i ∨ db.f5.length ≤ i) := by omega
  have hpr : core.opt.print_raw = true →
      0 ≤ ext.fast5_open r.qname ∧
        ∀ file, ext.fast5_read (ext.fast5_open r.qname) = some file →
          file.samples.length < 2 ^ 32 := by
    intro hpr
    simp only [path_pre, Bool.and_eq_true, decide_eq_true_eq, hpr, Bool.not_true,
      Bool.false_or] at hp
    refine ⟨hp.2.1, ?_⟩
    intro file hfile
    have := hp.2.2
    rw [hfile] at this
    simpa using this
  unfold load_slot
  simp only [hr, hn, hassert, hq, hq0, hidx, if_false, fetch_ref_eq core r ref_name _ hn,
    open_signal_eq, List.length_append, ref_cells_length, slot_cells, List.append_assoc]
  cases hpb : core.opt.print_raw
  · simp
  · obtain ⟨hopen, hlen⟩ := hpr hpb
    obtain ⟨line, hline⟩ := print_raw_line_ok ext r (w.heap ++ ref_cells core r) r.qname r.qname
      hopen hlen
    simp only [List.length_append, ref_cells_length, List.append_assoc] at hline
    simp [hopen, h5, hline]

theorem load_slot_frame (core : core_t) (ext : Extern α ε) [Zero α] (i : Nat) (db : db_t)
    (w : World α ε) (r : bam1_t) (hr : db.bam_rec[i]? = some r)
    (hf : i < db.fasta_cache.length) (h5 : i < db.f5.length)
    (hp : slot_pre core ext r = true) :
    ∃ db1 w1, load_slot core ext i db w = .ok (db1, w1) ∧
      db1.bam_rec = db.bam_rec ∧ db1.n_bam_rec = db.n_bam_rec ∧
      db1.capacity_bam_rec = db.capacity_bam_rec ∧ db1.et = db.et ∧
      db1.fasta_cache = db.fasta_cache.set i (ref_ptr core r w.heap.length) ∧
      db1.f5 = (if 0 ≤ ext.fast5_open r.qname then
                  db.f5.set i (some (w.heap.length + ref_len core r))
                else db.f5) ∧
      w1.heap = w.heap ++ slot_cells core ext r w.heap.length ∧
      w1.opened = w.opened ++ [r.qname] := by
  obtain ⟨w1, h1, h2, h3⟩ := load_slot_ok core ext i db w r hr hf h5 hp
  exact ⟨_, w1, h1, rfl, rfl, rfl, rfl, rfl, rfl, h2, h3⟩

theorem sig_cells_length (ext : Extern α ε) [Zero α] (r : bam1_t) (a : Nat) :
    (sig_cells ext r a).length = sig_len ext r := by
  unfold sig_cells sig_len
  split
  · cases ext.fast5_read (ext.fast5_open r.qname) <;> simp
  · simp

theorem slot_cells_length (core : core_t) (ext : Extern α ε) [Zero α] (r : bam1_t) (lo : Nat) :
    (slot_cells core ext r lo).length = slot_len core ext r := by
  simp [slot_cells, slot_len, ref_cells_length, sig_cells_length]

theorem Ptrs_congr (core : core_t) (ext : Extern α ε) (db db1 : db_t) (rs : List bam1_t) :
    ∀ (j lo : Nat), (∀ t, j ≤ t → db1.fasta_cache[t]? = db.fasta_cache[t]? ∧ db1.f5[t]? = db.f5[t]?) →
      Ptrs core ext db rs j lo → Ptrs core ext db1 rs j lo := by
  induction rs with
  | nil => intro j lo _ _; trivial
  | cons r rs ih =>
    intro j lo hsame hp
    obtain ⟨h1, h2, h3⟩ := hp
    refine ⟨?_, ?_, ih (j + 1) _ (fun t ht => hsame t (by omega)) h3⟩
    · rw [(hsame j (Nat.le_refl _)).1]; exact h1
    · intro ho; rw [(hsame j (Nat.le_refl _)).2]; exact h2 ho

theorem load_attach_spec (core : core_t) (ext : Extern α ε) [Zero α] :
    ∀ (k i : Nat) (db : db_t) (w : World α ε) (rs : List bam1_t),
      (db.bam_rec.drop i).take k = rs → rs.length = k →
      i + k ≤ db.fasta_cache.length → i + k ≤ db.f5.length →
      (∀ r ∈ rs, slot_pre core ext r = true) →
      ∃ db1 w1, load_attach core ext k i db w = .ok (db1, w1) ∧
        db1.bam_rec = db.bam_rec ∧ db1.n_bam_rec = db.n_bam_rec ∧
        db1.capacity_bam_rec = db.capacity_bam_rec ∧ db1.et = db.et ∧
        db1.fasta_cache.length = db.fasta_cache.length ∧ db1.f5.length = db.f5.length ∧
        w1.heap = w.heap ++ batch_cells core ext rs w.heap.length ∧
        w1.opened = w.opened ++ rs.map (fun r => r.qname) ∧
        Ptrs core ext db1 rs i w.heap.length ∧
        (∀ j, j < i → db1.fasta_cache[j]? = db.fasta_cache[j]? ∧ db1.f5[j]? = db.f5[j]?) := by
  intro k
  induction k with
  | zero =>
    intro i db w rs hrs hlen _ _ _
    have : rs = [] := List.length_eq_zero.mp hlen
    subst this
    exact ⟨db, w, rfl, rfl, rfl, rfl, rfl, rfl, rfl, by simp [batch_cells], by simp, trivial,
      fun _ _ => ⟨rfl, rfl⟩⟩
  | succ k ih =>
    intro i db w rs hrs hlen hfc hf5 hpre
    cases rs with
    | nil => simp at hlen
    | cons r rs =>
      have hi : i < db.bam_rec.length := by
        by_contra hcon
        rw [List.drop_eq_nil_of_le (by omega)] at hrs
        simp at hrs
      rw [List.drop_eq_getElem_cons hi, List.take_succ_cons] at hrs
      have hr : db.bam_rec[i]? = some r := by
        rw [List.getElem?_eq_getElem hi]
        exact congrArg some (List.cons.inj hrs).1
      have hrs1 : (db.bam_rec.drop (i + 1)).take k = rs := (List.cons.inj hrs).2
      obtain ⟨db0, w0, hslot, hb0, hn0, hc0, he0, hfc0, hf50, hheap0, hop0⟩ :=
        load_slot_frame core ext i db w r hr (by omega) (by omega)
          (hpre r (List.mem_cons_self _ _))
      have hlf0 : db0.fasta_cache.length = db.fasta_cache.length := by rw [hfc0]; simp
      have hl50 : db0.f5.length = db.f5.length := by rw [hf50]; split <;> simp
      obtain ⟨db1, w1, hrun, hb, hn, hc, he, hlf, hl5, hheap, hop, hptr, hframe⟩ :=
        ih (i + 1) db0 w0 rs (by rw [hb0]; exact hrs1) (by simpa using hlen)
          (by omega) (by omega) (fun x hx => hpre x (List.mem_cons_of_mem _ hx))
      refine ⟨db1, w1, ?_, by rw [hb, hb0], by rw [hn, hn0], by rw [hc, hc0], by rw [he, he0],
        by omega, by omega, ?_, ?_, ?_, ?_⟩
      · simp only [load_attach, hslot, hrun]
      · rw [hheap, hheap0]
        simp [batch_cells, slot_cells_length, Nat.add_assoc]
      · rw [hop, hop0]; simp
      · refine ⟨?_, ?_, ?_⟩
        · rw [(hframe i (Nat.lt_succ_self i)).1, hfc0]
          simp only [List.getElem?_set_self (show i < db.fasta_cache.length by omega)]
        · intro hopen
          rw [(hframe i (Nat.lt_succ_self i)).2, hf50]
          simp only [hopen, if_true, List.getElem?_set_self (show i < db.f5.length by omega)]
        · have := hptr
          rw [hheap0] at this
          simpa [slot_cells_length, Nat.add_assoc] using this
      · intro j hj
        obtain ⟨a, b⟩ := hframe j (by omega)
        refine ⟨?_, ?_⟩
        · rw [a, hfc0]; simp only [List.getElem?_set_ne (show i ≠ j by omega)]
        · rw [b, hf50]; split
          · simp only [List.getElem?_set_ne (show i ≠ j by omega)]
          · rfl

/-! ## `load_db` as a whole -/

theorem batch_cells_itr (core : core_t) (ext : Extern α ε) [Zero α] (rest : List bam1_t)
    (rs : List bam1_t) :
    ∀ lo, batch_cells { core with itr := rest } ext rs lo = batch_cells core ext rs lo := by
  induction rs with
  | nil => intro lo; rfl
  | cons r rs ih =>
    intro lo
    show slot_cells core ext r lo ++ batch_cells { core with itr := rest } ext rs _ = _
    rw [ih]
    rfl

theorem Ptrs_itr (core : core_t) (ext : Extern α ε) (rest : List bam1_t) (db : db_t)
    (rs : List bam1_t) :
    ∀ j lo, Ptrs { core with itr := rest } ext db rs j lo → Ptrs core ext db rs j lo := by
  induction rs with
  | nil => intro j lo _; trivial
  | cons r rs ih =>
    intro j lo hp
    exact ⟨hp.1, hp.2.1, ih _ _ hp.2.2⟩

theorem load_db_spec (core : core_t) (ext : Extern α ε) [Zero α] (db : db_t) (w : World α ε)
    (hwf : wf db) (hpre : load_pre core ext db.capacity_bam_rec = true) :
    ∃ l : Loaded α ε, load_db core ext db w = .ok l ∧
      l.db.n_bam_rec = l.ret ∧
      l.ret = (batch_of core db.capacity_bam_rec).length ∧
      l.db.bam_rec.take l.ret = batch_of core db.capacity_bam_rec ∧
      l.db.capacity_bam_rec = db.capacity_bam_rec ∧ wf l.db ∧ l.db.et = db.et ∧
      l.core.target_name = core.target_name ∧ l.core.fai = core.fai ∧
      l.core.readbb = core.readbb ∧ l.core.opt = core.opt ∧
      (∃ pulled, core.itr = pulled ++ l.core.itr ∧
        pulled.filter accepts = batch_of core db.capacity_bam_rec ∧
        (l.ret < db.capacity_bam_rec → l.core.itr = []) ∧
        (0 < db.capacity_bam_rec → l.ret = db.capacity_bam_rec →
          ∃ r, pulled.getLast? = some r ∧ accepts r = true)) ∧
      l.w.heap = w.heap ++ batch_cells core ext (batch_of core db.capacity_bam_rec) w.heap.length ∧
      l.w.opened = w.opened ++ (batch_of core db.capacity_bam_rec).map (fun r => r.qname) ∧
      Ptrs core ext l.db (batch_of core db.capacity_bam_rec) 0 w.heap.length := by
  obtain ⟨hw1, hw2, hw3, hw4⟩ := hwf
  obtain ⟨pulled, h1, h2, h3, h4, h5, h6, _, h8⟩ :=
    load_bams_spec db.capacity_bam_rec core.itr db.bam_rec 0 (Nat.zero_le _) (by omega)
  generalize hres : load_bams db.capacity_bam_rec core.itr db.bam_rec 0 = res at h1 h2 h3 h4 h5 h6 h8
  obtain ⟨slots, n, rest⟩ := res
  simp only [List.take_zero, List.nil_append, Nat.zero_add] at h1 h2 h3 h4 h5 h6 h8
  have hbatch : batch_of core db.capacity_bam_rec = pulled.filter accepts := by
    unfold batch_of
    by_cases hlt : n < db.capacity_bam_rec
    · have hrest := h5 hlt
      rw [hrest, List.append_nil] at h1
      rw [h1]
      exact List.take_of_length_le (by omega)
    · rw [h1, List.filter_append, List.take_append_eq_append_take]
      have hl : (pulled.filter accepts).length = db.capacity_bam_rec := by omega
      simp [hl]
  have hpre' : ∀ r ∈ pulled.filter accepts, slot_pre core ext r = true := by
    intro r hr
    have := hpre
    unfold load_pre at this
    rw [hbatch, List.all_eq_true] at this
    exact this r hr
  obtain ⟨db1, w1, hrun, hb, hn, hc, he, hlf, hl5, hheap, hop, hptr, _⟩ :=
    load_attach_spec ({ core with itr := rest }) ext n 0
      { db with n_bam_rec := n, bam_rec := slots } w (pulled.filter accepts)
      (by simpa using h2) h3.symm (by simp only [Nat.zero_add]; omega)
      (by simp only [Nat.zero_add]; omega) hpre'
  refine ⟨⟨{ core with itr := rest }, db1, w1, db1.n_bam_rec⟩, ?_, rfl, ?_, ?_, hc, ?_, he,
    rfl, rfl, rfl, rfl, ⟨pulled, h1, hbatch.symm, ?_, ?_⟩, ?_, ?_, ?_⟩
  · unfold load_db
    simp only [hres, hrun]
  · simp only [hn, hbatch]; exact h3
  · simp only [hn, hb, hbatch]; exact h2
  · refine ⟨?_, ?_, ?_, ?_⟩
    · rw [hb, hc]; simpa using h8.trans hw1
    · rw [hlf, hc]; exact hw2
    · rw [hl5, hc]; exact hw3
    · rw [he, hc]; exact hw4
  · simp only [hn]; exact h5
  · intro hcap hfull
    simp only [hn] at hfull
    exact h6 hcap hfull
  · rw [hheap, hbatch, batch_cells_itr]
  · rw [hop, hbatch]
  · rw [hbatch]; exact Ptrs_itr core ext rest db1 _ _ _ hptr

theorem load_slot_closed (core : core_t) (ext : Extern α ε) [Zero α] (i : Nat)
    (db db1 : db_t) (w w1 : World α ε) (h : load_slot core ext i db w = .ok (db1, w1)) :
    ∃ r, db.bam_rec[i]? = some r ∧ i < db.fasta_cache.length ∧ i < db.f5.length ∧
      db1.bam_rec = db.bam_rec ∧ db1.n_bam_rec = db.n_bam_rec ∧
      db1.capacity_bam_rec = db.capacity_bam_rec ∧ db1.et = db.et ∧
      db1.fasta_cache = db.fasta_cache.set i (ref_ptr core r w.heap.length) ∧
      db1.f5 = (if 0 ≤ ext.fast5_open r.qname then
                  db.f5.set i (some (w.heap.length + ref_len core r))
                else db.f5) ∧
      w1.heap = w.heap ++ slot_cells core ext r w.heap.length := by
  unfold load_slot at h
  split at h
  · cases h
  · rename_i record hrec
    split at h
    · cases h
    · rename_i ref_name hn
      simp only at h
      by_cases hassert : wrap32 (bam_endpos record) < wrap32 record.pos
      · simp only [hassert, if_true] at h
        cases h
      · simp only [hassert, if_false] at h
        by_cases hidx : db.fasta_cache.length ≤ i ∨ db.f5.length ≤ i
        · simp only [hidx, if_true] at h
          cases h
        · simp only [hidx, if_false] at h
          by_cases hq0 : wrap32 (wrap32 (((core.readbb record.qname).length : Int) + 10) + 10) < 0
          · simp only [hq0, if_true] at h
            cases h
          · simp only [hq0, if_false] at h
            by_cases hq : wrap32 (wrap32 (((core.readbb record.qname).length : Int) + 10) + 10)
                < (record.qname.length : Int) + 1
            · simp only [hq, if_true] at h
              cases h
            · simp only [hq, if_false] at h
              rw [fetch_ref_eq core record ref_name _ hn] at h
              simp only at h
              have key : db1 = (open_signal ext record.qname i
                  { db with fasta_cache := db.fasta_cache.set i (ref_ptr core record w.heap.length) }
                  { w with heap := w.heap ++ ref_cells core record }).1 ∧
                  w1.heap = (open_signal ext record.qname i
                  { db with fasta_cache := db.fasta_cache.set i (ref_ptr core record w.heap.length) }
                  { w with heap := w.heap ++ ref_cells core record }).2.heap := by
                generalize open_signal ext record.qname i
                  { db with fasta_cache := db.fasta_cache.set i (ref_ptr core record w.heap.length) }
                  { w with heap := w.heap ++ ref_cells core record } = O at h
                cases hp : core.opt.print_raw
                · simp only [hp, Bool.false_eq_true, if_false] at h
                  cases h
                  exact ⟨rfl, rfl⟩
                · simp only [hp, if_true] at h
                  split at h
                  · cases h
                  · cases h
                    exact ⟨rfl, rfl⟩
              obtain ⟨k1, k2⟩ := key
              rw [open_signal_eq] at k1 k2
              refine ⟨record, hrec, by omega, by omega, by rw [k1], by rw [k1], by rw [k1],
                by rw [k1], by rw [k1], ?_, ?_⟩
              · rw [k1]
                simp only [List.length_append, ref_cells_length]
              · rw [k2]
                simp only [List.length_append, ref_cells_length, slot_cells, List.append_assoc]

theorem load_slot_frame_ok (core : core_t) (ext : Extern α ε) [Zero α] (i : Nat)
    (db db1 : db_t) (w w1 : World α ε) (h : load_slot core ext i db w = .ok (db1, w1)) :
    db1.bam_rec = db.bam_rec ∧ db1.n_bam_rec = db.n_bam_rec ∧
      db1.capacity_bam_rec = db.capacity_bam_rec ∧ db1.et = db.et ∧
      db1.fasta_cache.length = db.fasta_cache.length ∧ db1.f5.length = db.f5.length := by
  obtain ⟨r, _, _, _, a1, a2, a3, a4, a5, a6, _⟩ := load_slot_closed core ext i db db1 w w1 h
  refine ⟨a1, a2, a3, a4, by rw [a5]; simp, ?_⟩
  rw [a6]
  split <;> simp

theorem load_attach_frame_ok (core : core_t) (ext : Extern α ε) [Zero α] :
    ∀ (k i : Nat) (db db1 : db_t) (w w1 : World α ε),
      load_attach core ext k i db w = .ok (db1, w1) →
      db1.bam_rec = db.bam_rec ∧ db1.n_bam_rec = db.n_bam_rec ∧
        db1.capacity_bam_rec = db.capacity_bam_rec ∧ db1.et = db.et ∧
        db1.fasta_cache.length = db.fasta_cache.length ∧ db1.f5.length = db.f5.length := by
  intro k
  induction k with
  | zero =>
    intro i db db1 w w1 h
    simp only [load_attach] at h
    cases h
    exact ⟨rfl, rfl, rfl, rfl, rfl, rfl⟩
  | succ k ih =>
    intro i db db1 w w1 h
    simp only [load_attach] at h
    split at h
    · cases h
    · rename_i db0 w0 hstep
      obtain ⟨a1, a2, a3, a4, a5, a6⟩ := load_slot_frame_ok core ext i db db0 w w0 hstep
      obtain ⟨b1, b2, b3, b4, b5, b6⟩ := ih (i + 1) db0 db1 w0 w1 h
      exact ⟨b1.trans a1, b2.trans a2, b3.trans a3, b4.trans a4, b5.trans a5, b6.trans a6⟩

/-- What `load_db` has done to the records whenever it returns. -/
theorem load_db_partial (core : core_t) (ext : Extern α ε) [Zero α] (db : db_t) (w : World α ε)
    (hwf : wf db) (l : Loaded α ε) (h : load_db core ext db w = .ok l) :
    l.db.n_bam_rec = l.ret ∧
      l.ret = (batch_of core db.capacity_bam_rec).length ∧
      l.db.bam_rec.take l.ret = batch_of core db.capacity_bam_rec ∧
      l.db.capacity_bam_rec = db.capacity_bam_rec ∧ wf l.db ∧ l.db.et = db.et ∧
      l.core.target_name = core.target_name ∧ l.core.fai = core.fai ∧
      l.core.readbb = core.readbb ∧ l.core.opt = core.opt ∧
      (∃ pulled, core.itr = pulled ++ l.core.itr ∧
        pulled.filter accepts = batch_of core db.capacity_bam_rec ∧
        (l.ret < db.capacity_bam_rec → l.core.itr = []) ∧
        (0 < db.capacity_bam_rec → l.ret = db.capacity_bam_rec →
          ∃ r, pulled.getLast? = some r ∧ accepts r = true)) := by
  obtain ⟨hw1, hw2, hw3, hw4⟩ := hwf
  obtain ⟨pulled, h1, h2, h3, h4, h5, h6, _, h8⟩ :=
    load_bams_spec db.capacity_bam_rec core.itr db.bam_rec 0 (Nat.zero_le _) (by omega)
  generalize hres : load_bams db.capacity_bam_rec core.itr db.bam_rec 0 = res at h1 h2 h3 h4 h5 h6 h8
  obtain ⟨slots, n, rest⟩ := res
  simp only [List.take_zero, List.nil_append, Nat.zero_add] at h1 h2 h3 h4 h5 h6 h8
  have hbatch : batch_of core db.capacity_bam_rec = pulled.filter accepts := by
    unfold batch_of
    by_cases hlt : n < db.capacity_bam_rec
    · have hrest := h5 hlt
      rw [hrest, List.append_nil] at h1
      rw [h1]
      exact List.take_of_length_le (by omega)
    · rw [h1, List.filter_append, List.take_append_eq_append_take]
      have hl : (pulled.filter accepts).length = db.capacity_bam_rec := by omega
      simp [hl]
  unfold load_db at h
  simp only [hres] at h
  split at h
  · cases h
  · rename_i db1 w1 hrun
    cases h
    obtain ⟨hb, hn, hc, he, hlf, hl5⟩ := load_attach_frame_ok _ _ _ _ _ _ _ _ hrun
    simp only at hb hn hc he hlf hl5
    refine ⟨rfl, ?_, ?_, hc, ⟨?_, ?_, ?_, ?_⟩, he, rfl, rfl, rfl, rfl,
      ⟨pulled, h1, hbatch.symm, ?_, ?_⟩⟩
    · simp only [hn, hbatch]; exact h3
    · simp only [hn, hb, hbatch]; exact h2
    · rw [hb, hc]; simpa using h8.trans hw1
    · rw [hlf, hc]; exact hw2
    · rw [hl5, hc]; exact hw3
    · rw [he, hc]; exact hw4
    · simp only [hn]; exact h5
    · intro hcap hfull
      simp only [hn] at hfull
      exact h6 hcap hfull

/-- The `int32_t` end position of a record at the largest `int32_t` start
position wraps below the start: the assertion of `load_db` fails, and the
record is outside `load_pre`. -/
theorem load_db_assert_fails :
    wrap32 (bam_endpos ⟨0, 40, 0, 2147483647, 3, "read3"⟩) = -2147483646 ∧
    load_pre (core_of [⟨0, 40, 0, 2147483647, 3, "read3"⟩] init_opt) ext0 2 = false ∧
    fault_of (load_db (core_of [⟨0, 40, 0, 2147483647, 3, "read3"⟩] init_opt) ext0 db2 w0)
      = some .assert_fail := by
  decide

/-- A record whose `tid` is -1 indexes `target_name` outside the header's
table, and is outside `load_pre`. -/
theorem load_db_tid_out_of_range :
    load_pre (core_of [⟨0, 40, -1, 7, 3, "read3"⟩] init_opt) ext0 2 = false ∧
    fault_of (load_db (core_of [⟨0, 40, -1, 7, 3, "read3"⟩] init_opt) ext0 db2 w0)
      = some .out_of_range := by
  decide

/-! ## Claims about the first loop of `load_db` -/

/-- C1 (code evaluated at the failing input): with `min_mapq = 40` configured
and a mapped record of quality 35 in the stream, `load_db` returns 1 and slot 0
holds that record, whose quality is below the configured minimum. -/
theorem load_db_ignores_min_mapq :
    ∃ l, load_db (core_of [rec_q35] { init_opt with min_mapq := 40 }) ext0 db2 w0 = .ok l ∧
      l.ret = 1 ∧ l.db.bam_rec[0]? = some rec_q35 ∧
      (rec_q35.flag &&& BAM_FUNMAP = 0) ∧ (rec_q35.qual : Int) < l.core.opt.min_mapq :=
  ⟨_, rfl, by decide⟩

/-- C6 (counterexample): a batch of capacity 2 and an iterator that still holds
one (unmapped) record: `load_db` returns 0 although the iterator was not
exhausted when it was called. -/
theorem load_db_zero_not_exhausted :
    1 ≤ db2.capacity_bam_rec ∧ (core_of [rec_unmapped] init_opt).itr ≠ [] ∧
    ∃ l, load_db (core_of [rec_unmapped] init_opt) ext0 db2 w0 = .ok l ∧ l.ret = 0 :=
  ⟨by decide, by decide, _, rfl, rfl⟩

/-- C6 (amended): for a well-formed batch of capacity at least 1, whenever
`load_db` returns, it returns 0 exactly when the iterator holds no accepted
record, and whenever it returns 0 the iterator is exhausted afterwards; when
the iterator holds no accepted record `load_db` does return, with 0 and an
exhausted iterator; on an exhausted iterator it returns 0 and leaves it
exhausted, and so does a second call. -/
theorem load_db_zero_iff (core : core_t) (ext : Extern α ε) [Zero α] (db : db_t)
    (w : World α ε) (hwf : wf db) (hcap : 1 ≤ db.capacity_bam_rec) :
    (∀ l : Loaded α ε, load_db core ext db w = .ok l →
      (l.ret = 0 ↔ ∀ r ∈ core.itr, accepts r = false) ∧ (l.ret = 0 → l.core.itr = [])) ∧
    ((∀ r ∈ core.itr, accepts r = false) →
      ∃ l : Loaded α ε, load_db core ext db w = .ok l ∧ l.ret = 0 ∧ l.core.itr = []) ∧
    (core.itr = [] → ∃ l l2 : Loaded α ε,
      load_db core ext db w = .ok l ∧ l.ret = 0 ∧ l.core.itr = [] ∧
      load_db l.core ext l.db l.w = .ok l2 ∧ l2.ret = 0 ∧ l2.core.itr = []) := by
  have part : ∀ (c : core_t) (d : db_t) (v : World α ε) (l : Loaded α ε), wf d →
      1 ≤ d.capacity_bam_rec → load_db c ext d v = .ok l →
      (l.ret = 0 ↔ ∀ r ∈ c.itr, accepts r = false) ∧ (l.ret = 0 → l.core.itr = []) := by
    intro c d v l hd hc1 hl
    obtain ⟨_, h3, _, _, _, _, _, _, _, _, ⟨pulled, _, _, hp3, _⟩⟩ :=
      load_db_partial c ext d v hd l hl
    refine ⟨?_, fun h0 => hp3 (by omega)⟩
    rw [h3]
    unfold batch_of
    rw [List.length_eq_zero, List.take_eq_nil_iff, List.filter_eq_nil_iff]
    constructor
    · rintro (h | h)
      · omega
      · intro r hr; simpa using h r hr
    · intro h; right; intro r hr; simpa using h r hr
  have tot : ∀ (c : core_t) (d : db_t) (v : World α ε), wf d → 1 ≤ d.capacity_bam_rec →
      (∀ r ∈ c.itr, accepts r = false) →
      ∃ l : Loaded α ε, load_db c ext d v = .ok l ∧ l.ret = 0 ∧ l.core.itr = [] ∧ wf l.db ∧
        l.db.capacity_bam_rec = d.capacity_bam_rec := by
    intro c d v hd hc1 hnone
    have hnil : c.itr.filter accepts = [] := by
      rw [List.filter_eq_nil_iff]
      intro r hr; simpa using hnone r hr
    have hpre : load_pre c ext d.capacity_bam_rec = true := by
      simp [load_pre, batch_of, hnil]
    obtain ⟨l, h1, _, _, _, hc, hwf1, _⟩ := load_db_spec c ext d v hd hpre
    obtain ⟨hiff, hz⟩ := part c d v l hd hc1 h1
    exact ⟨l, h1, hiff.mpr hnone, hz (hiff.mpr hnone), hwf1, hc⟩
  refine ⟨fun l hl => part core db w l hwf hcap hl, ?_, ?_⟩
  · intro hnone
    obtain ⟨l, h1, h0, hitr, _⟩ := tot core db w hwf hcap hnone
    exact ⟨l, h1, h0, hitr⟩
  · intro hnil
    obtain ⟨l, h1, h0, hitr, hwf1, hc⟩ :=
      tot core db w hwf hcap (by rw [hnil]; intro r hr; cases hr)
    obtain ⟨l2, g1, g0, gitr, _⟩ :=
      tot l.core l.db l.w hwf1 (by rw [hc]; exact hcap) (by rw [hitr]; intro r hr; cases hr)
    exact ⟨l, l2, h1, h0, hitr, g1, g0, gitr⟩

/-- Scenario D: on an exhausted iterator two consecutive `load_db` calls both return 0. -/
theorem load_db_zero_iff_witness :
    wf db2 ∧ 1 ≤ db2.capacity_bam_rec ∧
    ∃ l l2, load_db (core_of [] init_opt) ext0 db2 w0 = .ok l ∧ l.ret = 0 ∧
      load_db l.core ext0 l.db l.w = .ok l2 ∧ l2.ret = 0 := by
  refine ⟨by decide, by decide, ?_⟩
  obtain ⟨_, _, h⟩ :=
    load_db_zero_iff (core_of [] init_opt) ext0 db2 w0 (by decide) (by decide)
  obtain ⟨l, l2, h1, h0, _, g1, g0, _⟩ := h rfl
  exact ⟨l, l2, h1, h0, g1, g0⟩

/-! ## Claims about the signal attachment -/

/-- C4 (code evaluated at the failing input): the record `rec_unreadable` is accepted
and its signal record cannot be opened; after `load_db` slot 0 is occupied and
`db->f5[0]` still holds the pointer it held before the call, not NULL. -/
theorem load_db_keeps_stale_signal :
    ext0.fast5_open rec_unreadable.qname < 0 ∧
    ∃ l, load_db (core_of [rec_unreadable] init_opt) ext0 db2_stale w_freed = .ok l ∧
      l.ret = 1 ∧ l.db.f5[0]? = some (some 1) ∧ l.w.heap[1]? = some none ∧
      l.w.warned = ["read2x"] :=
  ⟨by decide, _, rfl, by decide⟩

/-- C9 (code evaluated at the failing input): the index resolves `read3` to
`/data/read3.fast5`, which can be opened, but `load_db` passes the read name
`read3` to `fast5_open`, which fails. -/
theorem load_db_opens_read_name :
    (core_of [rec_q40] init_opt).readbb rec_q40.qname = "/data/read3.fast5" ∧
    0 ≤ ext_resolved.fast5_open "/data/read3.fast5" ∧
    ∃ l, load_db (core_of [rec_q40] init_opt) ext_resolved db2 w0 = .ok l ∧
      l.ret = 1 ∧ l.w.opened = ["read3"] ∧ l.w.warned = ["read3"] ∧ l.db.f5[0]? = some none :=
  ⟨by decide, by decide, _, rfl, by decide⟩

/-- C5 (code evaluated at the failing input): with one occupied slot whose
signal attachment is NULL, `process_db` dereferences it. -/
theorem process_db_null_signal :
    process_db ext0 db_empty_signal w0 = .error .null_deref := rfl

/-! ## `process_db` -/

theorem toInt32_toNat_le (n : Nat) : (toInt32 n).toNat ≤ n := by
  unfold toInt32
  have := Nat.mod_le n (2 ^ 32)
  split <;> omega

theorem toInt32_of_lt (n : Nat) (h : n < 2 ^ 31) : (toInt32 n).toNat = n := by
  unfold toInt32
  have : n % 2 ^ 32 = n := Nat.mod_eq_of_lt (by omega)
  rw [this]
  have h' : n < 2147483648 := by omega
  simp [h']

theorem convert_length [Add α] [Mul α] (o u : α) :
    ∀ (k j : Nat) (buf : List α), (convert o u k j buf).length = buf.length := by
  intro k
  induction k with
  | zero => intro j buf; rfl
  | succ k ih =>
    intro j buf
    simp only [convert]
    rw [ih]
    split <;> simp

theorem convert_getElem? [Add α] [Mul α] (o u : α) :
    ∀ (k j : Nat) (buf : List α) (t : Nat),
      (convert o u k j buf)[t]? =
        if j ≤ t ∧ t < j + k then buf[t]?.map (fun x => (x + o) * u) else buf[t]? := by
  intro k
  induction k with
  | zero =>
    intro j buf t
    have : ¬ (j ≤ t ∧ t < j + 0) := by omega
    simp only [convert, this, if_false]
  | succ k ih =>
    intro j buf t
    simp only [convert]
    rw [ih]
    by_cases ht : t = j
    · subst ht
      have h1 : ¬ (t + 1 ≤ t ∧ t < t + 1 + k) := by omega
      have h2 : t ≤ t ∧ t < t + (k + 1) := by omega
      simp only [h1, h2, if_false, if_true]
      cases hb : buf[t]? with
      | none => simp [hb]
      | some x =>
        have hlt : t < buf.length := by
          by_contra hcon
          rw [List.getElem?_eq_none (by omega)] at hb
          cases hb
        simp [List.getElem?_set_self hlt]
    · have hset : ∀ v, (buf.set j v)[t]? = buf[t]? := fun v =>
        List.getElem?_set_ne (by omega)
      have hsame : (match buf[j]? with
          | some x => buf.set j ((x + o) * u)
          | none => buf)[t]? = buf[t]? := by
        split
        · exact hset _
        · rfl
      rw [hsame]
      by_cases hc : j + 1 ≤ t ∧ t < j + 1 + k
      · have : j ≤ t ∧ t < j + (k + 1) := by omega
        simp only [hc, this, and_self, if_true]
      · have : ¬ (j ≤ t ∧ t < j + (k + 1)) := by omega
        simp only [hc, this, if_false]

theorem convert_all [Add α] [Mul α] (o u : α) (buf : List α) :
    convert o u buf.length 0 buf = buf.map (fun x => (x + o) * u) := by
  apply List.ext_getElem?
  intro t
  rw [convert_getElem?]
  by_cases ht : t < buf.length
  · simp [ht]
  · simp only [Nat.zero_le, Nat.zero_add, ht, and_false, if_false, List.getElem?_map]
    rw [List.getElem?_eq_none (by omega)]
    rfl

theorem f5_at_append_ev (l : Heap α ε) (es : List ε) (a : Nat) :
    f5_at (l ++ [some (.ev es)]) a = f5_at l a := by
  unfold f5_at
  rcases Nat.lt_trichotomy a l.length with h | h | h
  · rw [List.getElem?_append_left h]
  · subst h
    rw [getElem?_append_len0, List.getElem?_eq_none (Nat.le_refl _)]
    rfl
  · rw [List.getElem?_eq_none (by simp; omega), List.getElem?_eq_none (by omega)]

theorem raw_at_append_ev (l : Heap α ε) (es : List ε) (x : Nat) :
    raw_at (l ++ [some (.ev es)]) x = raw_at l x := by
  unfold raw_at
  rcases Nat.lt_trichotomy x l.length with h | h | h
  · rw [List.getElem?_append_left h]
  · subst h
    rw [getElem?_append_len0, List.getElem?_eq_none (Nat.le_refl _)]
    rfl
  · rw [List.getElem?_eq_none (by simp; omega), List.getElem?_eq_none (by omega)]

theorem raw_at_lt (h : Heap α ε) (b : Nat) (xs : List α) (hb : raw_at h b = some xs) :
    b < h.length ∧ h[b]? = some (some (.raw xs)) := by
  unfold raw_at at hb
  split at hb
  · rename_i ys heq
    cases hb
    refine ⟨?_, heq⟩
    by_contra hcon
    rw [List.getElem?_eq_none (by omega)] at heq
    cases heq
  · cases hb

theorem f5_at_set_raw (h : Heap α ε) (b : Nat) (xs ys : List α) (hb : raw_at h b = some xs)
    (a : Nat) : f5_at (h.set b (some (.raw ys))) a = f5_at h a := by
  obtain ⟨hlt, hcell⟩ := raw_at_lt h b xs hb
  unfold f5_at
  by_cases hab : a = b
  · subst hab
    rw [List.getElem?_set_self hlt, hcell]
  · rw [List.getElem?_set_ne (fun e => hab e.symm)]

theorem raw_at_set_raw (h : Heap α ε) (b : Nat) (xs ys : List α) (hb : raw_at h b = some xs)
    (x : Nat) : raw_at (h.set b (some (.raw ys))) x = if x = b then some ys else raw_at h x := by
  obtain ⟨hlt, _⟩ := raw_at_lt h b xs hb
  unfold raw_at
  by_cases hxb : x = b
  · subst hxb
    rw [List.getElem?_set_self hlt]
    simp
  · rw [List.getElem?_set_ne (fun e => hxb e.symm)]
    simp [hxb]

theorem deref_raw_zero (h : Heap α ε) (p : Ptr) : deref_raw h p 0 = .ok [] := by
  simp [deref_raw]

theorem deref_raw_of_raw_at (h : Heap α ε) (b n : Nat) (xs : List α)
    (hb : raw_at h b = some xs) (hn : n ≤ xs.length) :
    deref_raw h (some b) n = .ok (if n = 0 then [] else xs) := by
  obtain ⟨_, hcell⟩ := raw_at_lt h b xs hb
  unfold deref_raw
  by_cases h0 : n = 0
  · simp [h0]
  · simp only [h0, if_false, hcell, hn, if_true]

theorem deref_f5_of_slot_sig (h : Heap α ε) (db : db_t) (i : Nat) (f : fast5_t α)
    (hs : slot_sig h db i = some f) : deref_f5 h (db.f5.getD i none) = .ok f := by
  unfold slot_sig at hs
  split at hs
  · rename_i a heq
    simp only [List.getD_eq_getElem?_getD, heq, Option.getD_some]
    unfold f5_at at hs
    unfold deref_f5
    split at hs
    · rename_i g hg
      cases hs
      simp only [hg]
    · cases hs
  · cases hs

theorem append_ev_facts [Add α] [Mul α] [Div α] (h : Heap α ε) (es : List ε) (f : fast5_t α)
    (hz : f.nsample < 2 ^ 31 → f.nsample = 0) :
    (∀ a, f5_at (h ++ [some (.ev es)]) a = f5_at h a) ∧
    (∀ x, f.rawptr ≠ some x → raw_at (h ++ [some (.ev es)]) x = raw_at h x) ∧
    (∀ x xs, raw_at h x = some xs →
      ∃ ys, raw_at (h ++ [some (.ev es)]) x = some ys ∧ ys.length = xs.length) ∧
    (∀ b xs, f.rawptr = some b → raw_at h b = some xs → xs.length = f.nsample →
      f.nsample < 2 ^ 31 → raw_at (h ++ [some (.ev es)]) b = some (xs.map (to_pA f))) := by
  refine ⟨fun a => f5_at_append_ev _ _ _, fun x _ => raw_at_append_ev _ _ _, ?_, ?_⟩
  · intro x ys hx
    exact ⟨ys, by rw [raw_at_append_ev]; exact hx, rfl⟩
  · intro b ys _ hy hlen h31
    have h0 := hz h31
    have : ys = [] := List.length_eq_zero.mp (by omega)
    subst this
    rw [raw_at_append_ev]
    exact hy

theorem process_slot_spec (ext : Extern α ε) [Add α] [Mul α] [Div α] (i : Nat) (db : db_t)
    (w : World α ε) (f : fast5_t α) (hi5 : i < db.f5.length) (hie : i < db.et.length)
    (hs : slot_sig w.heap db i = some f) (hv : buf_valid w.heap f) :
    ∃ db1 w1, process_slot ext i db w = .ok (db1, w1) ∧
      db1.f5 = db.f5 ∧ db1.n_bam_rec = db.n_bam_rec ∧ db1.et.length = db.et.length ∧
      db1.bam_rec = db.bam_rec ∧ db1.fasta_cache = db.fasta_cache ∧
      db1.capacity_bam_rec = db.capacity_bam_rec ∧
      (∀ a, f5_at w1.heap a = f5_at w.heap a) ∧
      (∀ x, f.rawptr ≠ some x → raw_at w1.heap x = raw_at w.heap x) ∧
      (∀ x xs, raw_at w.heap x = some xs →
        ∃ ys, raw_at w1.heap x = some ys ∧ ys.length = xs.length) ∧
      (∀ b xs, f.rawptr = some b → raw_at w.heap b = some xs → xs.length = f.nsample →
        f.nsample < 2 ^ 31 → raw_at w1.heap b = some (xs.map (to_pA f))) := by
  have hidx : ¬ (db.f5.length ≤ i ∨ db.et.length ≤ i) := by omega
  have hd := deref_f5_of_slot_sig w.heap db i f hs
  unfold process_slot
  simp only [hidx, if_false, hd]
  rcases hv with h0 | ⟨b, xs, hb, hraw, hle⟩
  · -- no samples: nothing is read or written through rawptr
    have hk : (toInt32 f.nsample).toNat = 0 := by rw [h0]; rfl
    have hfacts := fun es => append_ev_facts w.heap es f (fun _ => h0)
    have hz : ∀ (h1 : Heap α ε) (p : Ptr), deref_raw h1 p f.nsample = .ok [] := by
      intro h1 p; rw [h0]; exact deref_raw_zero _ _
    cases hrp : f.rawptr with
    | none =>
      simp only [hk, deref_raw_zero, hz, malloc]
      refine ⟨_, _, rfl, rfl, rfl, by simp, rfl, rfl, rfl, ?_⟩
      have := hfacts (ext.getevents f.nsample [])
      rw [hrp] at this
      exact this
    | some b =>
      simp only [hk, deref_raw_zero, hz, malloc, if_true]
      refine ⟨_, _, rfl, rfl, rfl, by simp, rfl, rfl, rfl, ?_⟩
      have := hfacts (ext.getevents f.nsample [])
      rw [hrp] at this
      exact this
  · have hkle : (toInt32 f.nsample).toNat ≤ xs.length :=
      Nat.le_trans (toInt32_toNat_le _) hle
    simp only [hb, deref_raw_of_raw_at w.heap b _ xs hraw hkle]
    by_cases hk : (toInt32 f.nsample).toNat = 0
    · simp only [hk, if_true, deref_raw_of_raw_at w.heap b _ xs hraw hle, malloc]
      have hfacts := fun es => append_ev_facts w.heap es f
        (fun h31 => by have := toInt32_of_lt _ h31; omega)
      refine ⟨_, _, rfl, rfl, rfl, by simp, rfl, rfl, rfl, ?_⟩
      have := hfacts (ext.getevents f.nsample (if f.nsample = 0 then [] else xs))
      rw [hb] at this
      exact this
    · simp only [hk, if_false]
      have hraw1 : raw_at (w.heap.set b (some (.raw (convert f.offset (f.range / f.digitisation)
          (toInt32 f.nsample).toNat 0 xs)))) b =
          some (convert f.offset (f.range / f.digitisation) (toInt32 f.nsample).toNat 0 xs) := by
        rw [raw_at_set_raw w.heap b xs _ hraw]; simp
      simp only [deref_raw_of_raw_at _ b f.nsample _ hraw1
        (by rw [convert_length]; exact hle), malloc]
      refine ⟨_, _, rfl, rfl, rfl, by simp, rfl, rfl, rfl, ?_, ?_, ?_, ?_⟩
      · intro a
        rw [f5_at_append_ev, f5_at_set_raw w.heap b xs _ hraw]
      · intro x hx
        rw [raw_at_append_ev, raw_at_set_raw w.heap b xs _ hraw]
        have : x ≠ b := fun e => hx (by rw [e])
        simp [this]
      · intro x ys hx
        rw [raw_at_append_ev, raw_at_set_raw w.heap b xs _ hraw]
        by_cases hxb : x = b
        · rw [hxb, hraw] at hx
          cases hx
          refine ⟨convert f.offset (f.range / f.digitisation) (toInt32 f.nsample).toNat 0 xs, ?_,
            convert_length _ _ _ _ _⟩
          simp only [hxb, if_true]
        · exact ⟨ys, by simp only [hxb, if_false]; exact hx, rfl⟩
      · intro b' ys hb' hy hlen h31
        have hbb : b' = b := Option.some.inj hb'.symm
        rw [hbb, hraw] at hy
        cases hy
        rw [raw_at_append_ev, raw_at_set_raw w.heap b xs _ hraw]
        simp only [hbb, if_true]
        rw [toInt32_of_lt _ h31, ← hlen, convert_all]
        rfl

theorem slot_sig_congr (h h1 : Heap α ε) (db db1 : db_t) (hf : db1.f5 = db.f5)
    (ha : ∀ a, f5_at h1 a = f5_at h a) (j : Nat) : slot_sig h1 db1 j = slot_sig h db j := by
  unfold slot_sig
  rw [hf]
  split <;> simp [ha]

theorem buf_valid_mono (h h1 : Heap α ε) (f : fast5_t α)
    (hr : ∀ x xs, raw_at h x = some xs → ∃ ys, raw_at h1 x = some ys ∧ ys.length = xs.length)
    (hv : buf_valid h f) : buf_valid h1 f := by
  rcases hv with h0 | ⟨b, xs, hb, hraw, hle⟩
  · exact Or.inl h0
  · obtain ⟨ys, hy, hl⟩ := hr b xs hraw
    exact Or.inr ⟨b, ys, hb, hy, by omega⟩

theorem process_loop_spec (ext : Extern α ε) [Add α] [Mul α] [Div α] :
    ∀ (k i : Nat) (db : db_t) (w : World α ε),
      i + k ≤ db.f5.length → i + k ≤ db.et.length →
      (∀ j, i ≤ j → j < i + k → ∃ f, slot_sig w.heap db j = some f ∧ buf_valid w.heap f) →
      ∃ db1 w1, process_loop ext k i db w = .ok (db1, w1) ∧
        db1.f5 = db.f5 ∧ db1.n_bam_rec = db.n_bam_rec ∧ db1.et.length = db.et.length ∧
        db1.bam_rec = db.bam_rec ∧ db1.fasta_cache = db.fasta_cache ∧
        db1.capacity_bam_rec = db.capacity_bam_rec ∧
        (∀ a, f5_at w1.heap a = f5_at w.heap a) ∧
        (∀ x xs, raw_at w.heap x = some xs →
          ∃ ys, raw_at w1.heap x = some ys ∧ ys.length = xs.length) ∧
        (∀ x, (∀ j f, i ≤ j → j < i + k → slot_sig w.heap db j = some f → f.rawptr ≠ some x) →
          raw_at w1.heap x = raw_at w.heap x) ∧
        (∀ j f b xs, i ≤ j → j < i + k → slot_sig w.heap db j = some f → f.rawptr = some b →
          raw_at w.heap b = some xs → xs.length = f.nsample → f.nsample < 2 ^ 31 →
          (∀ j' g, i ≤ j' → j' < i + k → j' ≠ j → slot_sig w.heap db j' = some g →
            g.rawptr ≠ some b) →
          raw_at w1.heap b = some (xs.map (to_pA f))) := by
  intro k
  induction k with
  | zero =>
    intro i db w _ _ _
    refine ⟨db, w, rfl, rfl, rfl, rfl, rfl, rfl, rfl, fun _ => rfl, fun x xs hx => ⟨xs, hx, rfl⟩,
      fun _ _ => rfl, ?_⟩
    intro j f b xs h1 h2
    omega
  | succ k ih =>
    intro i db w h5 het hvalid
    obtain ⟨fi, hsi, hvi⟩ := hvalid i (Nat.le_refl _) (by omega)
    obtain ⟨db0, w0, hstep, e5, en, eet, eb, efc, ecap, hF, hU, hR, hM⟩ :=
      process_slot_spec ext i db w fi (by omega) (by omega) hsi hvi
    have hsig : ∀ j, slot_sig w0.heap db0 j = slot_sig w.heap db j :=
      slot_sig_congr w.heap w0.heap db db0 e5 hF
    obtain ⟨db1, w1, hrun, g5, gn, get, gb, gfc, gcap, gF, gR, gU, gM⟩ :=
      ih (i + 1) db0 w0 (by rw [e5]; omega) (by rw [eet]; omega)
        (by
          intro j hj1 hj2
          obtain ⟨f, hf, hv⟩ := hvalid j (by omega) (by omega)
          exact ⟨f, by rw [hsig]; exact hf, buf_valid_mono w.heap w0.heap f hR hv⟩)
    refine ⟨db1, w1, ?_, by rw [g5, e5], by rw [gn, en], by rw [get, eet], by rw [gb, eb],
      by rw [gfc, efc], by rw [gcap, ecap], fun a => by rw [gF, hF], ?_, ?_, ?_⟩
    · simp only [process_loop, hstep, hrun]
    · intro x xs hx
      obtain ⟨ys, hy, hl⟩ := hR x xs hx
      obtain ⟨zs, hz, hl2⟩ := gR x ys hy
      exact ⟨zs, hz, by omega⟩
    · intro x hx
      rw [gU x (fun j f hj1 hj2 hf => hx j f (by omega) (by omega) (by rw [← hsig]; exact hf)),
        hU x (hx i fi (Nat.le_refl _) (by omega) hsi)]
    · intro j f b xs hj1 hj2 hf hb hraw hlen h31 hna
      by_cases hji : j = i
      · subst hji
        have hfe : fi = f := Option.some.inj (hsi.symm.trans hf)
        subst hfe
        rw [gU b (fun j' g hj1' hj2' hg =>
          hna j' g (by omega) (by omega) (by omega) (by rw [← hsig]; exact hg))]
        exact hM b xs hb hraw hlen h31
      · have hne : fi.rawptr ≠ some b := hna i fi (Nat.le_refl _) (by omega) (fun e => hji e.symm) hsi
        have hraw0 : raw_at w0.heap b = some xs := by rw [hU b hne]; exact hraw
        exact gM j f b xs (by omega) (by omega) (by rw [hsig]; exact hf) hb hraw0 hlen h31
          (fun j' g hj1' hj2' hne' hg =>
            hna j' g (by omega) (by omega) hne' (by rw [← hsig]; exact hg))

/-! ## Unit conversion -/

/-- C3: in a batch whose occupied slots all carry a readable signal record,
`process_db` returns, and for a slot whose sample buffer `raw` has length
`nsample` (within the `int32_t` loop counter) and is not shared with another
occupied slot, the buffer afterwards has the same length, its `j`-th value is
`(raw[j] + offset) * (range / digitisation)` computed with the arithmetic of the
sample type, and the slot's signal record (pointer, sample count, calibration
constants) is unchanged. -/
theorem process_db_normalises (ext : Extern α ε) [Add α] [Mul α] [Div α] (db : db_t)
    (w : World α ε) (h5 : db.n_bam_rec ≤ db.f5.length) (het : db.n_bam_rec ≤ db.et.length)
    (hvalid : ∀ j, j < db.n_bam_rec → ∃ f, slot_sig w.heap db j = some f ∧ buf_valid w.heap f)
    (i : Nat) (hi : i < db.n_bam_rec) (f : fast5_t α) (b : Nat) (raw : List α)
    (hsig : slot_sig w.heap db i = some f) (hptr : f.rawptr = some b)
    (hraw : raw_at w.heap b = some raw) (hlen : raw.length = f.nsample)
    (h31 : f.nsample < 2 ^ 31)
    (hna : ∀ j g, j < db.n_bam_rec → j ≠ i → slot_sig w.heap db j = some g →
      g.rawptr ≠ some b) :
    ∃ db1 w1 out, process_db ext db w = .ok (db1, w1) ∧
      slot_sig w1.heap db1 i = some f ∧
      raw_at w1.heap b = some out ∧
      out.length = raw.length ∧
      (∀ (j : Nat) (x : α), raw[j]? = some x →
        out[j]? = some ((x + f.offset) * (f.range / f.digitisation))) ∧
      out = raw.map (fun x => (x + f.offset) * (f.range / f.digitisation)) := by
  obtain ⟨db1, w1, hrun, g5, _, _, _, _, _, gF, _, _, gM⟩ :=
    process_loop_spec ext db.n_bam_rec 0 db w (by omega) (by omega)
      (fun j _ hj => hvalid j (by omega))
  refine ⟨db1, w1, raw.map (to_pA f), hrun, ?_, ?_, by simp, ?_, rfl⟩
  · rw [slot_sig_congr w.heap w1.heap db db1 g5 gF]; exact hsig
  · exact gM i f b raw (Nat.zero_le _) (by omega) hsig hptr hraw hlen h31
      (fun j' g _ hj hne hg => hna j' g (by omega) hne hg)
  · intro j x hx
    rw [List.getElem?_map, hx]
    rfl

/-- Scenario B: samples `[10, 20]` with offset 5, range 2 and digitisation 1
normalise to `[30, 50]`; the signal record is unchanged. -/
theorem process_db_normalises_witness :
    ∃ db1 w1, process_db extQ dbQ wQ = .ok (db1, w1) ∧
      slot_sig w1.heap db1 0 = some f5Q ∧ raw_at w1.heap 1 = some [30, 50] := by
  obtain ⟨db1, w1, out, h1, h2, h3, _, _, h6⟩ :=
    process_db_normalises extQ dbQ wQ (by decide) (by decide)
      (by
        intro j hj
        have : j = 0 := by
          have : dbQ.n_bam_rec = 1 := rfl
          omega
        subst this
        exact ⟨f5Q, rfl, Or.inr ⟨1, [10, 20], rfl, rfl, by decide⟩⟩)
      0 (by decide) f5Q 1 [10, 20] rfl rfl rfl rfl (by norm_num [f5Q])
      (by
        intro j g hj hne
        have : dbQ.n_bam_rec = 1 := rfl
        omega)
  refine ⟨db1, w1, h1, h2, ?_⟩
  rw [h3, h6]
  norm_num [f5Q]

/-! ## What the attachments of a loaded slot contain -/

theorem free_slot_frame (i : Nat) (db db1 : db_t) (w w1 : World α ε)
    (h : free_slot i db w = .ok (db1, w1)) :
    db1.capacity_bam_rec = db.capacity_bam_rec ∧ db1.n_bam_rec = db.n_bam_rec ∧
      db1.bam_rec.length = db.bam_rec.length ∧ db1.fasta_cache = db.fasta_cache ∧
      db1.f5 = db.f5 ∧ db1.et = db.et := by
  unfold free_slot at h
  split at h
  · cases h
  · split at h
    · cases h
    · split at h
      · cases h
      · split at h
        · cases h
        · split at h
          · cases h
          · split at h
            · cases h
            · cases h
              exact ⟨rfl, rfl, by simp, rfl, rfl, rfl⟩

theorem free_loop_frame :
    ∀ (k i : Nat) (db db1 : db_t) (w w1 : World α ε),
      free_loop k i db w = .ok (db1, w1) →
      db1.capacity_bam_rec = db.capacity_bam_rec ∧ db1.n_bam_rec = db.n_bam_rec ∧
        db1.bam_rec.length = db.bam_rec.length ∧ db1.fasta_cache = db.fasta_cache ∧
        db1.f5 = db.f5 ∧ db1.et = db.et := by
  intro k
  induction k with
  | zero =>
    intro i db db1 w w1 h
    simp only [free_loop] at h
    cases h
    exact ⟨rfl, rfl, rfl, rfl, rfl, rfl⟩
  | succ k ih =>
    intro i db db1 w w1 h
    simp only [free_loop] at h
    split at h
    · cases h
    · rename_i db0 w0 hstep
      obtain ⟨a1, a2, a3, a4, a5, a6⟩ := free_slot_frame i db db0 w w0 hstep
      obtain ⟨b1, b2, b3, b4, b5, b6⟩ := ih (i + 1) db0 db1 w0 w1 h
      exact ⟨b1.trans a1, b2.trans a2, b3.trans a3, b4.trans a4, b5.trans a5, b6.trans a6⟩

theorem free_db_tmp_wf (db db1 : db_t) (w w1 : World α ε)
    (h : free_db_tmp db w = .ok (db1, w1)) (hwf : wf db) :
    wf db1 ∧ db1.capacity_bam_rec = db.capacity_bam_rec ∧ db1.et = db.et := by
  obtain ⟨a1, _, a3, a4, a5, a6⟩ := free_loop_frame db.n_bam_rec 0 db db1 w w1 h
  obtain ⟨w1', w2', w3', w4'⟩ := hwf
  exact ⟨⟨by rw [a3, a1]; exact w1', by rw [a4, a1]; exact w2', by rw [a5, a1]; exact w3',
    by rw [a6, a1]; exact w4'⟩, a1, a6⟩

theorem set_append_len {β : Type} (l m : List β) (k : Nat) (v : β) :
    (l ++ m).set (l.length + k) v = l ++ m.set k v := by
  rw [List.set_append_right _ _ (by omega)]
  simp

theorem free_append (pre m : Heap α ε) (k : Nat) :
    free (pre ++ m) (some (pre.length + k)) =
      match m[k]? with
      | some (some _) => .ok (pre ++ m.set k none)
      | _ => .error .bad_free := by
  unfold free
  simp only [getElem?_append_len, set_append_len]

theorem deref_f5_append_eq (pre m : Heap α ε) (k : Nat) :
    deref_f5 (pre ++ m) (some (pre.length + k)) =
      match m[k]? with
      | some (some (.f5 f)) => .ok f
      | _ => .error .wild_deref := by
  unfold deref_f5
  simp only [getElem?_append_len]

theorem free_append0 (pre m : Heap α ε) :
    free (pre ++ m) (some pre.length) =
      match m[0]? with
      | some (some _) => .ok (pre ++ m.set 0 none)
      | _ => .error .bad_free := by
  simpa using free_append pre m 0

theorem deref_f5_append_eq0 (pre m : Heap α ε) :
    deref_f5 (pre ++ m) (some pre.length) =
      (match m[0]? with
      | some (some (Obj.f5 f)) => Except.ok f
      | _ => Except.error Fault.wild_deref : Except Fault (fast5_t α)) := by
  simpa using deref_f5_append_eq pre m 0

theorem free_null (h : Heap α ε) : free h none = .ok h := rfl

theorem free_slot_loaded (core : core_t) (ext : Extern α ε) [Zero α] (r : bam1_t) (i : Nat)
    (db : db_t) (w : World α ε) (pre post : Heap α ε)
    (hheap : w.heap = pre ++ slot_cells core ext r pre.length ++ post)
    (hfc : db.fasta_cache[i]? = some (ref_ptr core r pre.length))
    (hf5 : db.f5[i]? = some (some (pre.length + ref_len core r)))
    (hopen : 0 ≤ ext.fast5_open r.qname)
    (het : ∃ e, db.et[i]? = some e ∧ e.event = none) (hb : i < db.bam_rec.length) :
    free_slot i db w =
      .ok ({ db with bam_rec := db.bam_rec.set i bam_init1 },
           { w with heap := pre ++ List.replicate (slot_len core ext r) none ++ post }) := by
  obtain ⟨e, he, hev⟩ := het
  have h1 := lt_of_getElem?_some _ _ _ hfc
  have h2 := lt_of_getElem?_some _ _ _ hf5
  have h3 := lt_of_getElem?_some _ _ _ he
  have hidx : ¬ (db.bam_rec.length ≤ i ∨ db.fasta_cache.length ≤ i ∨ db.f5.length ≤ i ∨
      db.et.length ≤ i) := by omega
  unfold free_slot
  simp only [hidx, if_false, List.getD_eq_getElem?_getD, hfc, hf5, he, Option.getD_some, hev,
    hheap]
  unfold slot_cells ref_cells ref_ptr ref_len sig_cells slot_len sig_len ref_len
  simp only [hopen, if_true, List.append_assoc]
  cases ref_of core r <;> cases ext.fast5_read (ext.fast5_open r.qname) <;>
    simp only [Nat.add_zero, List.nil_append, List.cons_append, Nat.add_assoc, free_null,
      free_append, free_append0, deref_f5_append_eq, deref_f5_append_eq0,
      List.getElem?_cons_zero, List.getElem?_cons_succ, List.set_cons_zero, List.set_cons_succ,
      List.replicate, Nat.zero_add, Nat.reduceAdd]

theorem free_loop_loaded (core : core_t) (ext : Extern α ε) [Zero α] (rs : List bam1_t) :
    ∀ (j : Nat) (pre post : Heap α ε) (db : db_t) (w : World α ε),
      Ptrs core ext db rs j pre.length →
      w.heap = pre ++ batch_cells core ext rs pre.length ++ post →
      (∀ r ∈ rs, 0 ≤ ext.fast5_open r.qname) →
      (∀ t, t < rs.length → ∃ e, db.et[j + t]? = some e ∧ e.event = none) →
      j + rs.length ≤ db.bam_rec.length →
      ∃ db1 w1, free_loop rs.length j db w = .ok (db1, w1) ∧
        w1.heap = pre ++ List.replicate (batch_len core ext rs) none ++ post := by
  induction rs with
  | nil =>
    intro j pre post db w _ hheap _ _ _
    exact ⟨db, w, rfl, by simpa [batch_cells, batch_len] using hheap⟩
  | cons r rs ih =>
    intro j pre post db w hp hheap hopen het hb
    obtain ⟨hp1, hp2, hp3⟩ := hp
    have ho : 0 ≤ ext.fast5_open r.qname := hopen r (List.mem_cons_self _ _)
    have hshape : w.heap = pre ++ slot_cells core ext r pre.length ++
        (batch_cells core ext rs (pre.length + slot_len core ext r) ++ post) := by
      rw [hheap]; simp [batch_cells, List.append_assoc]
    have hstep := free_slot_loaded core ext r j db w pre _ hshape hp1 (hp2 ho) ho
      (by simpa using het 0 (by simp)) (by simp at hb; omega)
    have hlen : (pre ++ List.replicate (slot_len core ext r) (none : Option (Obj α ε))).length =
        pre.length + slot_len core ext r := by simp
    obtain ⟨db1, w1, hrun, hheap1⟩ :=
      ih (j + 1) (pre ++ List.replicate (slot_len core ext r) none) post
        { db with bam_rec := db.bam_rec.set j bam_init1 }
        { w with heap := pre ++ List.replicate (slot_len core ext r) none ++
            (batch_cells core ext rs (pre.length + slot_len core ext r) ++ post) }
        (by rw [hlen]; exact Ptrs_congr core ext db _ rs _ _ (fun _ _ => ⟨rfl, rfl⟩) hp3)
        (by rw [hlen]; simp [List.append_assoc])
        (fun x hx => hopen x (List.mem_cons_of_mem _ hx))
        (by
          intro t ht
          have := het (t + 1) (by simp; omega)
          have hidx : j + 1 + t = j + (t + 1) := by omega
          rw [hidx]; exact this)
        (by simp at hb ⊢; omega)
    refine ⟨db1, w1, ?_, ?_⟩
    · simp only [List.length_cons, free_loop, hstep, hrun]
    · rw [hheap1]
      simp only [batch_len, List.replicate_add, List.append_assoc]

/-! ## Repeated loading -/

theorem slot_pre_congr (core core1 : core_t) (ext : Extern α ε) (r : bam1_t)
    (h0 : core1.target_name = core.target_name)
    (h1 : core1.readbb = core.readbb) (h2 : core1.opt = core.opt) :
    slot_pre core1 ext r = slot_pre core ext r := by
  unfold slot_pre ref_pre path_pre target_name_at
  rw [h0, h1, h2]

/-- When every accepted record can be attached and released and the batch's
event pointers are NULL, the sequence of loads runs to its end within fuel
one more than the stream length. -/
theorem drain_spec (ext : Extern α ε) [Zero α] :
    ∀ (fuel : Nat) (core : core_t) (db : db_t) (w : World α ε),
      core.itr.length < fuel → wf db → 1 ≤ db.capacity_bam_rec → stream_ok core ext →
      (∀ e ∈ db.et, e.event = none) →
      ∃ bs, drain ext fuel core db w = .ok (some bs) ∧
        bs.flatten = core.itr.filter accepts ∧
        ∀ b ∈ bs, b ≠ [] ∧ b.length ≤ db.capacity_bam_rec := by
  intro fuel
  induction fuel with
  | zero => intro core db w h; omega
  | succ fuel ih =>
    intro core db w hfuel hwf hcap hok het
    have hpre : load_pre core ext db.capacity_bam_rec = true := by
      unfold load_pre batch_of
      rw [List.all_eq_true]
      intro r hr
      have hmem := List.mem_of_mem_take hr
      rw [List.mem_filter] at hmem
      exact (hok r hmem.1 hmem.2).1
    obtain ⟨l, h1, h2, h3, h4, h5, hwf1, h7, htn, _, hrb, hopt, ⟨pulled, hp1, hp2, hp3, _⟩,
      hheap, _, hptr⟩ := load_db_spec core ext db w hwf hpre
    by_cases hz : l.ret = 0
    · refine ⟨[], by simp only [drain, h1, hz, if_true], ?_, by simp⟩
      have hrest := hp3 (by omega)
      rw [hrest, List.append_nil] at hp1
      have : (batch_of core db.capacity_bam_rec).length = 0 := by omega
      rw [List.flatten_nil, hp1, hp2]
      exact (List.length_eq_zero.mp this).symm
    · -- release the batch, then continue with what is left of the stream
      obtain ⟨hl1, hl2, hl3, hl4⟩ := hwf1
      have hopen : ∀ r ∈ batch_of core db.capacity_bam_rec, 0 ≤ ext.fast5_open r.qname := by
        intro r hr
        have hmem := List.mem_of_mem_take hr
        rw [List.mem_filter] at hmem
        exact (hok r hmem.1 hmem.2).2
      have hbl : (batch_of core db.capacity_bam_rec).length ≤ db.capacity_bam_rec := by
        unfold batch_of
        rw [List.length_take]
        exact Nat.min_le_left _ _
      have het1 : ∀ t, t < (batch_of core db.capacity_bam_rec).length →
          ∃ e, l.db.et[0 + t]? = some e ∧ e.event = none := by
        intro t ht
        have hlt : t < l.db.et.length := by omega
        refine ⟨l.db.et[t], by simp [List.getElem?_eq_getElem hlt], ?_⟩
        apply het
        rw [← h7]
        exact List.getElem_mem _
      obtain ⟨db1, w1, hfree, _⟩ :=
        free_loop_loaded core ext (batch_of core db.capacity_bam_rec) 0 w.heap [] l.db l.w hptr
          (by simpa using hheap) hopen het1 (by omega)
      have hfree' : free_db_tmp l.db l.w = .ok (db1, w1) := by
        unfold free_db_tmp
        rw [h2, h3]
        exact hfree
      obtain ⟨hwf2, hcap2, het2⟩ := free_db_tmp_wf l.db db1 l.w w1 hfree' ⟨hl1, hl2, hl3, hl4⟩
      have hne : pulled ≠ [] := by
        intro hnil
        rw [hnil] at hp2
        have : (batch_of core db.capacity_bam_rec).length = 0 := by rw [← hp2]; rfl
        omega
      have hshort : l.core.itr.length < fuel := by
        have := congrArg List.length hp1
        rw [List.length_append] at this
        have : 0 < pulled.length := List.length_pos.mpr hne
        omega
      have hok1 : stream_ok l.core ext := by
        intro r hr ha
        have hmem : r ∈ core.itr := by rw [hp1]; exact List.mem_append_right _ hr
        rw [slot_pre_congr core l.core ext r htn hrb hopt]
        exact hok r hmem ha
      obtain ⟨bs, hrun, hjoin, hall⟩ :=
        ih l.core db1 w1 hshort hwf2 (by rw [hcap2, h5]; exact hcap) hok1
          (by rw [het2, h7]; exact het)
      refine ⟨l.db.bam_rec.take l.ret :: bs, ?_, ?_, ?_⟩
      · simp only [drain, h1, hz, if_false, hfree', hrun]
      · rw [List.flatten_cons, hjoin, h4, ← hp2]
        conv_rhs => rw [hp1, List.filter_append]
      · intro b hb
        rcases List.mem_cons.mp hb with hb | hb
        · subst hb
          rw [h4]
          refine ⟨?_, ?_⟩
          · intro hnil
            rw [hnil] at h3
            exact hz h3
          · unfold batch_of
            rw [List.length_take]
            exact Nat.min_le_left _ _
        · have := hall b hb
          rw [hcap2, h5] at this
          exact this

/-- Whenever the sequence of loads runs to its end, the batches concatenate to
the accepted records of the stream, in order. -/
theorem drain_partial (ext : Extern α ε) [Zero α] :
    ∀ (fuel : Nat) (core : core_t) (db : db_t) (w : World α ε) (bs : List (List bam1_t)),
      wf db → 1 ≤ db.capacity_bam_rec → drain ext fuel core db w = .ok (some bs) →
      bs.flatten = core.itr.filter accepts ∧
        ∀ b ∈ bs, b ≠ [] ∧ b.length ≤ db.capacity_bam_rec := by
  intro fuel
  induction fuel with
  | zero =>
    intro core db w bs _ _ h
    simp only [drain] at h
    cases h
  | succ fuel ih =>
    intro core db w bs hwf hcap h
    simp only [drain] at h
    split at h
    · cases h
    · rename_i l hl
      obtain ⟨_, h3, h4, h5, hwf1, _, _, _, _, _, ⟨pulled, hp1, hp2, hp3, _⟩⟩ :=
        load_db_partial core ext db w hwf l hl
      by_cases hz : l.ret = 0
      · simp only [hz, if_true] at h
        cases h
        refine ⟨?_, by simp⟩
        have hrest := hp3 (by omega)
        rw [hrest, List.append_nil] at hp1
        have : (batch_of core db.capacity_bam_rec).length = 0 := by omega
        rw [List.flatten_nil, hp1, hp2]
        exact (List.length_eq_zero.mp this).symm
      · simp only [hz, if_false] at h
        split at h
        · cases h
        · rename_i db1 w1 hfree
          obtain ⟨hwf2, hcap2, _⟩ := free_db_tmp_wf l.db db1 l.w w1 hfree hwf1
          split at h
          · cases h
          · cases h
          · rename_i bs1 hrun
            cases h
            obtain ⟨hjoin, hall⟩ :=
              ih l.core db1 w1 bs1 hwf2 (by rw [hcap2, h5]; exact hcap) hrun
            refine ⟨?_, ?_⟩
            · rw [List.flatten_cons, hjoin, h4, ← hp2]
              conv_rhs => rw [hp1, List.filter_append]
            · intro b hb
              rcases List.mem_cons.mp hb with hb | hb
              · subst hb
                rw [h4]
                refine ⟨?_, ?_⟩
                · intro hnil
                  rw [hnil] at h3
                  exact hz h3
                · unfold batch_of
                  rw [List.length_take]
                  exact Nat.min_le_left _ _
              · have := hall b hb
                rw [hcap2, h5] at this
                exact this

/-- C10 (code evaluated at the failing input): a zeroed batch of capacity 2 and
a stream of one accepted record whose signal record cannot be opened. The first
`load_db` returns 1 with that record in slot 0 and leaves `f5[0]` NULL; the
`free_db_tmp` that follows dereferences it, so the sequence of loads never
reaches a `load_db` that returns 0 and no batch sequence is produced, whatever
the fuel. -/
theorem drain_unreadable_faults :
    accepts rec_unreadable = true ∧ ext0.fast5_open rec_unreadable.qname < 0 ∧
    wf db2 ∧ 1 ≤ db2.capacity_bam_rec ∧
    (∃ l, load_db (core_of [rec_unreadable] init_opt) ext0 db2 w0 = .ok l ∧
      l.ret = 1 ∧ l.db.bam_rec.take l.ret = [rec_unreadable] ∧ l.db.f5[0]? = some none ∧
      fault_of (free_db_tmp l.db l.w) = some .null_deref) ∧
    (∀ fuel, fault_of (drain ext0 (fuel + 1) (core_of [rec_unreadable] init_opt) db2 w0)
      = some .null_deref) :=
  ⟨by decide, by decide, by decide, by decide, ⟨_, rfl, by decide⟩, fun _ => rfl⟩

/-! ## Resource balance -/

/-- C8 (code evaluated at the failing input): a first cycle on a zeroed batch
with one accepted read whose signal record cannot be opened. `load_db` acquires
the reference buffer and leaves `f5[0]` NULL; `process_db` dereferences it, so
the cycle never reaches `free_db_tmp` and the reference buffer stays acquired.
With a batch of capacity 1 and a readable record first, the first cycle is
balanced and the second cycle reads the signal record that the first one
freed. -/
theorem cycle_unopened_signal_faults :
    ext0.fast5_open rec_unreadable.qname < 0 ∧
    fault_of (cycle (core_of [rec_unreadable] init_opt) ext0 db2 w0) = some .null_deref ∧
    (∃ l, load_db (core_of [rec_unreadable] init_opt) ext0 db2 w0 = .ok l ∧
      live l.w.heap = [0] ∧ live w0.heap = [] ∧
      fault_of (process_db ext0 l.db l.w) = some .null_deref ∧
      fault_of (free_db_tmp l.db l.w) = some .null_deref) ∧
    (∃ c d v, cycle (core_of [rec_q40, rec_unreadable] init_opt) ext0 db_cap1 w0
        = .ok (c, d, v, 1) ∧
      live v.heap = [] ∧ c.itr = [rec_unreadable] ∧
      fault_of (cycle c ext0 d v) = some .wild_deref) :=
  ⟨by decide, rfl, ⟨_, rfl, by decide⟩, _, _, _, rfl, by decide⟩

end F5c
